import Mathlib

/-!
A shallow embedding of the gogotrace reverse call-graph analyzer
(`analyzer/parser.go`, `analyzer/matcher.go`, `tree/builder.go`) and proofs
about it.  Go strings are modelled as Lean `String`s (the corpus is ASCII, so
Go's byte indexing coincides with character indexing); the `strings` standard
library functions used by the source are re-implemented character by character
in the `gostr` namespace.  Maps (`sync.Map`) are modelled as association
lists; the mutex around `addCallSite` serializes insertions, so any concurrent
execution is modelled by a sequence of insertions.
-/

namespace gostr

/-- Lexicographic `<` on character lists; model of Go's `<` on strings. -/
def lexLt : List Char → List Char → Bool
  | [], [] => false
  | [], _ :: _ => true
  | _ :: _, [] => false
  | a :: as, b :: bs =>
    if a < b then true
    else if b < a then false
    else lexLt as bs

/-- Go `s1 < s2` (byte-lexicographic comparison). -/
def strLt (a b : String) : Bool := lexLt a.toList b.toList

/-- Go `len(s)` (byte length; ASCII assumed). -/
def strLen (s : String) : Nat := s.toList.length

/-- Does `pre` start the list `l`? -/
def listStarts : List Char → List Char → Bool
  | _, [] => true
  | [], _ :: _ => false
  | c :: cs, p :: ps => c == p && listStarts cs ps

/-- Go `strings.HasPrefix`. -/
def startsWith (s pre : String) : Bool := listStarts s.toList pre.toList

/-- Go `strings.HasSuffix`. -/
def endsWith (s post : String) : Bool :=
  listStarts s.toList.reverse post.toList.reverse

/-- Go `strings.TrimPrefix`: removes `pre` from the front if present. -/
def trimLead (s pre : String) : String :=
  if startsWith s pre then String.mk (s.toList.drop pre.toList.length) else s

/-- Go `strings.ToLower` (ASCII). -/
def toLower (s : String) : String := String.mk (s.toList.map Char.toLower)

/-- Go `strings.TrimSpace`. -/
def trimSpace (s : String) : String :=
  String.mk (((s.toList.dropWhile Char.isWhitespace).reverse.dropWhile
    Char.isWhitespace).reverse)

/-- Go `strings.Trim(s, cut)`: trim leading and trailing chars in `cut`. -/
def trimCut (s cut : String) : String :=
  String.mk (((s.toList.dropWhile (cut.toList.contains ·)).reverse.dropWhile
    (cut.toList.contains ·)).reverse)

/-- First index at which `sub` occurs in `l` (model of `strings.Index`;
`none` stands for Go's `-1`). -/
def listIndex : List Char → List Char → Option Nat
  | l, sub =>
    if listStarts l sub then some 0
    else match l with
      | [] => none
      | _ :: cs => (listIndex cs sub).map (· + 1)

/-- Go `strings.Index` as an `Option`. -/
def index? (s sub : String) : Option Nat := listIndex s.toList sub.toList

/-- Go `strings.Contains` (`Index >= 0`). -/
def containsStr (s sub : String) : Bool := (index? s sub).isSome

/-- Go slice `s[i:]` (ASCII byte = char). -/
def sliceFrom (s : String) (i : Nat) : String := String.mk (s.toList.drop i)

/-- Go slice `s[:i]`. -/
def sliceTo (s : String) (i : Nat) : String := String.mk (s.toList.take i)

/-- Go slice `s[i:j]`. -/
def slice (s : String) (i j : Nat) : String :=
  String.mk ((s.toList.take j).drop i)

/-- Worker for Go `strings.ReplaceAll`: left-to-right, non-overlapping;
`fuel ≥ l.length` makes it total (each step consumes at least one char). -/
def replaceAllCh (old new : List Char) : Nat → List Char → List Char
  | _, [] => []
  | 0, l => l
  | fuel + 1, c :: cs =>
    if listStarts (c :: cs) old && !old.isEmpty then
      new ++ replaceAllCh old new fuel ((c :: cs).drop old.length)
    else
      c :: replaceAllCh old new fuel cs

/-- Go `strings.ReplaceAll` (the source only calls it with nonempty `old`;
an empty `old` leaves the string unchanged here). -/
def replaceAll (s old new : String) : String :=
  String.mk (replaceAllCh old.toList new.toList s.toList.length s.toList)

/-- Accumulator worker for `fields`. -/
def fieldsAux : List Char → List Char → List String
  | [], cur => if cur.isEmpty then [] else [String.mk cur.reverse]
  | c :: cs, cur =>
    if c.isWhitespace then
      if cur.isEmpty then fieldsAux cs []
      else String.mk cur.reverse :: fieldsAux cs []
    else fieldsAux cs (c :: cur)

/-- Go `strings.Fields`: split around runs of whitespace, dropping empties. -/
def fields (s : String) : List String := fieldsAux s.toList []

/-- Go `strings.Join(parts, sep)`. -/
def joinSep (parts : List String) (sep : String) : String :=
  match parts with
  | [] => ""
  | p :: ps => ps.foldl (fun acc q => acc ++ sep ++ q) p

/-- Go `filepath.Base` (for slash-separated relative paths). -/
def baseName (s : String) : String :=
  String.mk ((s.toList.reverse.takeWhile (· ≠ '/')).reverse)

/-- Decimal digit character. -/
def digitChar (n : Nat) : Char :=
  match n with
  | 0 => '0' | 1 => '1' | 2 => '2' | 3 => '3' | 4 => '4'
  | 5 => '5' | 6 => '6' | 7 => '7' | 8 => '8' | _ => '9'

/-- Decimal rendering worker (fuel-driven; fuel `n` suffices for value `n`). -/
def natToStrAux : Nat → Nat → List Char
  | 0, _ => []
  | fuel + 1, n =>
    if n < 10 then [digitChar n]
    else natToStrAux fuel (n / 10) ++ [digitChar (n % 10)]

/-- Go `fmt` rendering of a non-negative integer (model of `%d`). -/
def natToStr (n : Nat) : String := String.mk (natToStrAux (n + 1) n)

/-- Insert into a `le`-sorted list (worker for `sortListBy`). -/
def insBy (le : α → α → Bool) (a : α) : List α → List α
  | [] => [a]
  | b :: bs => if le a b then a :: b :: bs else b :: insBy le a bs

/-- Insertion sort: the model of Go's `sort.Slice` with comparator
`less`, invoked here through the non-strict `le a b = !less b a`. -/
def sortListBy (le : α → α → Bool) : List α → List α
  | [] => []
  | a :: as => insBy le a (sortListBy le as)

/-- Lexicographic combination of a strict comparator on the first
component with one on the second. -/
def lexComb [BEq α] (lt1 : α → α → Bool) (lt2 : β → β → Bool) (p q : α × β) : Bool :=
  lt1 p.1 q.1 || (p.1 == q.1 && lt2 p.2 q.2)

/-- Strict `<` on `Nat` as a `Bool` comparator. -/
def natLtB (a b : Nat) : Bool := decide (a < b)

end gostr


namespace analyzer

/-- `analyzer.Function` (parser.go:17-27). -/
structure Function where
  Name       : String
  Receiver   : String
  Signature  : String
  Package    : String
  File       : String
  Line       : Nat
  IsTest     : Bool
  FullPath   : String
  Parameters : String
deriving DecidableEq, Repr, Inhabited

/-- `analyzer.CallSite` (parser.go:29-32). -/
structure CallSite where
  Caller : Function
  Callee : Function
deriving DecidableEq, Repr

/-- The callee-keyed call graph (`Analyzer.callGraph`, a `sync.Map` from
callee key to `[]*CallSite`), modelled as an association list. -/
abbrev CallGraph := List (String × List CallSite)

/-- `sync.Map.Load` (first-binding lookup). -/
def graphLoad (g : CallGraph) (k : String) : Option (List CallSite) :=
  match g with
  | [] => none
  | (k', v) :: rest => if k' == k then some v else graphLoad rest k

/-- `sync.Map.Store`: replace the first binding for `k`, or append one. -/
def graphStore (g : CallGraph) (k : String) (v : List CallSite) : CallGraph :=
  match g with
  | [] => [(k, v)]
  | (k', v') :: rest =>
      if k' == k then (k, v) :: rest else (k', v') :: graphStore rest k v

/-- Analyzer state: the function catalog (values of `Analyzer.functions`)
and the call graph. -/
structure Analyzer where
  functions : List Function
  callGraph : CallGraph

/-- `Analyzer.getFunctionKey` (parser.go:716-721): identity key
`package#receiver.name#line` / `package#name#line`. -/
def getFunctionKey (fn : Function) : String :=
  if fn.Receiver ≠ "" then
    fn.Package ++ "#" ++ fn.Receiver ++ "." ++ fn.Name ++ "#" ++ gostr.natToStr fn.Line
  else
    fn.Package ++ "#" ++ fn.Name ++ "#" ++ gostr.natToStr fn.Line

/-- `Analyzer.addCallSite` (parser.go:648-680).  The mutex makes the
check-then-append atomic; a concurrent history is therefore some sequence
of these state transformations. -/
def addCallSite (g : CallGraph) (caller callee : Function) : CallGraph :=
  let calleeKey := getFunctionKey callee
  let callerKey := getFunctionKey caller
  let callSites := (graphLoad g calleeKey).getD []
  if callSites.any (fun cs => getFunctionKey cs.Caller == callerKey) then g
  else graphStore g calleeKey (callSites ++ [CallSite.mk caller callee])

/-- `Analyzer.GetCallersOf` (parser.go:729-735); Go's `nil` result is `[]`. -/
def GetCallersOf (a : Analyzer) (fn : Function) : List CallSite :=
  (graphLoad a.callGraph (getFunctionKey fn)).getD []

/-! ### Declaration extractor (parser.go:216-312, 682-714) -/

/-- The shapes of `ast.Expr` that `formatType` distinguishes. -/
inductive TypeExpr where
  | ident (name : String)
  | star (x : TypeExpr)
  | sel (x : TypeExpr) (name : String)
  | array (elt : TypeExpr) (hasLen : Bool)
  | interfaceT
  | structT
  | funcT
  | mapT (key value : TypeExpr)
  | chanT (value : TypeExpr)
  | ellipsis (elt : TypeExpr)
  | unknownT
deriving DecidableEq, Repr

/-- `Analyzer.formatType` (parser.go:682-710). -/
def formatType : TypeExpr → String
  | .ident n => n
  | .star x => "*" ++ formatType x
  | .sel x n => formatType x ++ "." ++ n
  | .array e hasLen => if hasLen then "[...]" ++ formatType e else "[]" ++ formatType e
  | .interfaceT => "interface\x7b\x7d"
  | .structT => "struct\x7b\x7d"
  | .funcT => "func(...)"
  | .mapT k v => "map[" ++ formatType k ++ "]" ++ formatType v
  | .chanT v => "chan " ++ formatType v
  | .ellipsis e => "..." ++ formatType e
  | .unknownT => "unknown"

/-- `ast.Field`: a parameter or receiver group (names may be empty). -/
structure FieldAst where
  Names : List String
  Typ   : TypeExpr
deriving DecidableEq, Repr

/-- The parts of `ast.FuncDecl` the extractor reads. -/
structure FuncDeclAst where
  Name   : String
  Recv   : List FieldAst
  Params : List FieldAst
  Line   : Nat
deriving DecidableEq, Repr

/-- Parameter rendering shared by `extractParameters` and `buildSignature`
(parser.go:245-260 and 296-309): `name type` per name, or the bare type. -/
def renderParams (params : List FieldAst) : List String :=
  params.foldl (fun acc field =>
    let paramType := formatType field.Typ
    if field.Names.length > 0 then
      acc ++ field.Names.map (fun n => n ++ " " ++ paramType)
    else acc ++ [paramType]) []

/-- `Analyzer.extractParameters` (parser.go:245-260). -/
def extractParameters (fn : FuncDeclAst) : String :=
  "(" ++ gostr.joinSep (renderParams fn.Params) ", " ++ ")"

/-- `Analyzer.buildSignature` (parser.go:279-312). -/
def buildSignature (fn : FuncDeclAst) : String :=
  let parts := ["func"]
  let parts := parts ++ (match fn.Recv.head? with
    | some recv =>
      let recvType := formatType recv.Typ
      (match recv.Names.head? with
       | some n => ["(" ++ n ++ " " ++ recvType ++ ")"]
       | none => ["(" ++ recvType ++ ")"])
    | none => [])
  let parts := parts ++ [fn.Name]
  let parts := parts ++ ["(" ++ gostr.joinSep (renderParams fn.Params) ", " ++ ")"]
  gostr.joinSep parts " "

/-- `Analyzer.isTestFunction` (parser.go:712-714). -/
def isTestFunction (filename : String) : Bool :=
  gostr.endsWith filename "_test.go"

/-- `Analyzer.createFunction` (parser.go:216-243). -/
def createFunction (fn : FuncDeclAst) (packagePath relPath : String) : Function :=
  { Name       := fn.Name
    Package    := packagePath
    File       := gostr.baseName relPath
    Line       := fn.Line
    IsTest     := isTestFunction relPath
    FullPath   := relPath
    Parameters := extractParameters fn
    Receiver   := (match fn.Recv.head? with
                   | some recv => formatType recv.Typ
                   | none => "")
    Signature  := buildSignature fn }

/-! ### Receiver heuristic (parser.go:486-604) -/

/-- `splitCamelCase` worker (current word carried along). -/
def splitCamelCaseAux : List Char → List Char → List String
  | [], current => if current.length > 0 then [String.mk current] else []
  | r :: rest, current =>
    if 'A' ≤ r ∧ r ≤ 'Z' then
      if current.length > 0 then String.mk current :: splitCamelCaseAux rest [r]
      else splitCamelCaseAux rest [r]
    else splitCamelCaseAux rest (current ++ [r])

/-- `splitCamelCase` (parser.go:585-604). -/
def splitCamelCase (s : String) : List String :=
  match s.toList with
  | [] => []
  | c :: rest => splitCamelCaseAux rest [c]

/-- `Analyzer.couldBeReceiver` (parser.go:486-583). -/
def couldBeReceiver (varName receiverType : String) : Bool :=
  let receiverType := gostr.trimLead receiverType "*"
  if gostr.strLen varName == 0 || gostr.strLen receiverType == 0 then false
  else
    let varLower := gostr.toLower varName
    let typeLower := gostr.toLower receiverType
    if varLower == typeLower then true
    else if gostr.strLen varName == 1 && gostr.startsWith typeLower varLower then
      if varLower == "r" then
        gostr.containsStr typeLower "r" || gostr.containsStr typeLower "reader" ||
        gostr.containsStr typeLower "router" || gostr.containsStr typeLower "multiplexer"
      else if varLower == "m" then
        gostr.containsStr typeLower "m" || gostr.containsStr typeLower "manager" ||
        gostr.containsStr typeLower "map" || gostr.containsStr typeLower "multiplexer"
      else if varLower == "s" then
        gostr.containsStr typeLower "s" || gostr.containsStr typeLower "server" ||
        gostr.containsStr typeLower "service" || gostr.containsStr typeLower "store"
      else if varLower == "c" then
        gostr.containsStr typeLower "c" || gostr.containsStr typeLower "client" ||
        gostr.containsStr typeLower "controller" || gostr.containsStr typeLower "context"
      else if varLower == "t" then
        gostr.containsStr typeLower "t" || gostr.containsStr typeLower "tracker"
      else if varLower == "i" then
        gostr.containsStr typeLower "i" || gostr.containsStr typeLower "inbox"
      else if varLower == "b" then
        gostr.containsStr typeLower "b" || gostr.containsStr typeLower "batch"
      else gostr.startsWith typeLower varLower
    else if varLower == "mux" && gostr.containsStr typeLower "multiplexer" then true
    else if varLower == "simmux" && gostr.containsStr typeLower "multiplexer" then true
    else if gostr.strLen varName > 3 && gostr.endsWith typeLower varLower then true
    else if gostr.strLen varName == 2 &&
      (match splitCamelCase receiverType with
       | p0 :: p1 :: _ =>
         (match p0.toList, p1.toList with
          | c0 :: _, c1 :: _ => varLower == gostr.toLower (String.mk [c0, c1])
          | _, _ => false)
       | _ => false) then true
    else if gostr.strLen varName > 2 && gostr.containsStr typeLower varLower then true
    else false

end analyzer


namespace analyzer

/-! ### Signature matcher (matcher.go) -/

/-- `Analyzer.normalizeSignature` (parser.go:723-727). -/
def normalizeSignature (sig : String) : String :=
  gostr.replaceAll (gostr.trimSpace sig) "  " " "

/-- `signatureParts` (matcher.go:89-93). -/
structure signatureParts where
  receiver : String
  name     : String
  params   : String
deriving DecidableEq, Repr

/-- `Analyzer.parseSignature` (matcher.go:95-118). -/
def parseSignature (sig : String) : signatureParts :=
  let sig := gostr.trimSpace (gostr.trimLead sig "func")
  let st :=
    if gostr.startsWith sig "(" then
      match gostr.index? sig ")" with
      | some endRecv =>
        if endRecv > 0 then
          (gostr.slice sig 1 endRecv, gostr.trimSpace (gostr.sliceFrom sig (endRecv + 1)))
        else ("", sig)
      | none => ("", sig)
    else ("", sig)
  let receiver := st.1
  let sig := st.2
  match gostr.index? sig "(" with
  | some parenIdx =>
    if parenIdx > 0 then
      { receiver := receiver, name := gostr.trimSpace (gostr.sliceTo sig parenIdx),
        params := gostr.sliceFrom sig parenIdx }
    else { receiver := receiver, name := sig, params := "" }
  | none => { receiver := receiver, name := sig, params := "" }

/-- `Analyzer.matchesReceiverSignature` (matcher.go:120-138). -/
def matchesReceiverSignature (fnReceiver targetReceiver : String) : Bool :=
  let fnReceiver := gostr.trimSpace fnReceiver
  let targetReceiver := gostr.trimSpace targetReceiver
  let fnParts := gostr.fields fnReceiver
  let targetParts := gostr.fields targetReceiver
  if fnParts.length < 2 || targetParts.length < 2 then false
  else
    match fnParts.getLast?, targetParts.getLast? with
    | some fnType, some targetType =>
      gostr.trimLead fnType "*" == gostr.trimLead targetType "*"
    | _, _ => false

/-- Opening bracket characters of `splitParams`. -/
def isOpenCh (c : Char) : Bool := c == '(' || c == '[' || c == Char.ofNat 123

/-- Closing bracket characters of `splitParams`. -/
def isCloseCh (c : Char) : Bool := c == ')' || c == ']' || c == Char.ofNat 125

/-- Worker for `splitParams`: depth-aware comma splitting (depth is an `Int`
as in Go, where unbalanced input can drive it negative). -/
def splitParamsCh : List Char → Int → List Char → List String
  | [], _, current =>
    if current.length > 0 then [gostr.trimSpace (String.mk current.reverse)] else []
  | ch :: rest, depth, current =>
    if isOpenCh ch then splitParamsCh rest (depth + 1) (ch :: current)
    else if isCloseCh ch then splitParamsCh rest (depth - 1) (ch :: current)
    else if ch == ',' then
      if depth == 0 then
        gostr.trimSpace (String.mk current.reverse) :: splitParamsCh rest depth []
      else splitParamsCh rest depth (ch :: current)
    else splitParamsCh rest depth (ch :: current)

/-- `Analyzer.splitParams` (matcher.go:164-198). -/
def splitParams (params : String) : List String :=
  if params == "" then [] else splitParamsCh params.toList 0 []

/-- `Analyzer.matchesParam` (matcher.go:200-212): compare only the last
whitespace-separated token (the type) of each parameter. -/
def matchesParam (fnParam targetParam : String) : Bool :=
  let fnParts := gostr.fields fnParam
  let targetParts := gostr.fields targetParam
  if fnParts.length == 0 || targetParts.length == 0 then false
  else
    match fnParts.getLast?, targetParts.getLast? with
    | some fnType, some targetType => fnType == targetType
    | _, _ => false

/-- `Analyzer.matchesParams` (matcher.go:140-162). -/
def matchesParams (fnParams targetParams : String) : Bool :=
  let fnParams := gostr.trimCut fnParams "()"
  let targetParams := gostr.trimCut targetParams "()"
  if fnParams == targetParams then true
  else
    let fnParamList := splitParams fnParams
    let targetParamList := splitParams targetParams
    if fnParamList.length ≠ targetParamList.length then false
    else (fnParamList.zip targetParamList).all fun p => matchesParam p.1 p.2

/-- `Analyzer.matchesSignature` (matcher.go:59-87). -/
def matchesSignature (fn : Function) (targetSignature : String) : Bool :=
  let fnSig := normalizeSignature fn.Signature
  let targetSig := normalizeSignature targetSignature
  if fnSig == targetSig then true
  else
    let fnParts := parseSignature fnSig
    let targetParts := parseSignature targetSig
    if fnParts.name ≠ targetParts.name then false
    else if targetParts.receiver ≠ "" &&
        !matchesReceiverSignature fnParts.receiver targetParts.receiver then false
    else if targetParts.params ≠ "" && targetParts.params ≠ "()" &&
        !matchesParams fnParts.params targetParts.params then false
    else true

/-! ### Deterministic sort by identity key (model of `sort.Slice` with
`less i j = key i < key j`, matcher.go:28-30 and parser.go:422-424, 460-462) -/

/-- Non-strict comparison induced by the sort's `less` function. -/
def fnLe (a b : Function) : Bool :=
  !(gostr.strLt (getFunctionKey b) (getFunctionKey a))

/-- Sorting by identity key: the model of `sort.Slice` on function lists. -/
def sortFns (l : List Function) : List Function := gostr.sortListBy fnLe l

/-- The target selection inside `FindCallers` (matcher.go:17-40): collect
matching functions, sort by key, take the first. -/
def resolveTarget (a : Analyzer) (targetSignature : String) : Option Function :=
  (sortFns (a.functions.filter (fun fn => matchesSignature fn targetSignature))).head?

/-- `Analyzer.FindCallers` (matcher.go:9-57). -/
def FindCallers (a : Analyzer) (targetSignature : String) (excludeTests : Bool) :
    Except String (List CallSite) :=
  let ts := normalizeSignature targetSignature
  match resolveTarget a ts with
  | none => .error ("function with signature '" ++ ts ++ "' not found")
  | some targetFunc =>
    let allCallSites := (graphLoad a.callGraph (getFunctionKey targetFunc)).getD []
    .ok (if excludeTests then allCallSites.filter (fun cs => !cs.Caller.IsTest)
         else allCallSites)

/-! ### Call resolver (parser.go:350-484) -/

/-- The shapes of `ast.CallExpr.Fun` that `processCallExpr` distinguishes:
a plain identifier, a selector over an identifier (`x.m()`), a selector over
a field of an identifier (`x.f.m()` — the field name is the receiver hint),
a selector over a deeper expression (no hint), or anything else. -/
inductive CallFun where
  | identCall (name : String)
  | selIdent (varName method : String)
  | selFieldIdent (fieldName method : String)
  | selFieldDeep (method : String)
  | otherCall
deriving DecidableEq, Repr

/-- `Analyzer.processCallExpr` (parser.go:350-484), acting on the call
graph; `catalog` stands for the `a.functions.Range` enumeration. -/
def processCallExpr (catalog : List Function) (call : CallFun) (caller : Function)
    (localFuncs : List Function) (g : CallGraph) : CallGraph :=
  match call with
  | .identCall targetName =>
    (match localFuncs.find? (fun fn => fn.Name == targetName && fn.Receiver == "") with
     | some fn => addCallSite g caller fn
     | none => g)
  | .otherCall => g
  | sel =>
    let mrf : String × String × Bool :=
      match sel with
      | .selIdent varName method => (method, varName, false)
      | .selFieldIdent fieldName method => (method, fieldName, true)
      | .selFieldDeep method => (method, "", true)
      | _ => ("", "", false)
    let methodName := mrf.1
    let receiverVar := mrf.2.1
    let receiverFieldAccess := mrf.2.2
    let scan := localFuncs.foldl (fun (st : CallGraph × Bool) fn =>
      if fn.Name == methodName && fn.Receiver ≠ "" then
        if receiverVar ≠ "" then
          if couldBeReceiver receiverVar fn.Receiver then (addCallSite st.1 caller fn, true)
          else st
        else if receiverFieldAccess then (addCallSite st.1 caller fn, true)
        else st
      else st) (g, false)
    let g := scan.1
    let found := scan.2
    if !found && methodName ≠ "" then
      if receiverVar ≠ "" then
        let candidates := sortFns (catalog.filter (fun fn =>
          fn.Name == methodName && fn.Receiver ≠ "" && couldBeReceiver receiverVar fn.Receiver))
        match candidates with
        | [] => g
        | [fn] => addCallSite g caller fn
        | fn0 :: _ :: _ =>
          (match candidates.find? (fun fn => fn.Package == caller.Package) with
           | some fn => addCallSite g caller fn
           | none => addCallSite g caller fn0)
      else if receiverFieldAccess then
        let candidates := sortFns (catalog.filter (fun fn =>
          fn.Name == methodName && fn.Receiver ≠ ""))
        (match candidates.find? (fun fn => fn.Package == caller.Package) with
         | some fn => addCallSite g caller fn
         | none =>
           match candidates with
           | [fn] => addCallSite g caller fn
           | _ => g)
      else g
    else g

/-- Running the resolver over the call expressions of one function body
(the `ast.Inspect` walk of `analyzeFunctionBody`, parser.go:314-332,
restricted to `CallExpr` nodes). -/
def resolveBody (catalog : List Function) (caller : Function)
    (localFuncs : List Function) (body : List CallFun) (g : CallGraph) : CallGraph :=
  body.foldl (fun g call => processCallExpr catalog call caller localFuncs g) g

end analyzer

namespace tree

/-- `tree.CallNode` (builder.go:12-18); the unused `Visited` field is
dropped. -/
inductive CallNode where
  | mk (Function : analyzer.Function) (Children : List CallNode)
       (Usages : Nat) (Depth : Nat)

/-- The node's `Function` field. -/
def CallNode.Function : CallNode → analyzer.Function
  | .mk f _ _ _ => f

/-- The node's `Children` field. -/
def CallNode.Children : CallNode → List CallNode
  | .mk _ cs _ _ => cs

/-- The node's `Usages` field. -/
def CallNode.Usages : CallNode → Nat
  | .mk _ _ u _ => u

/-- The node's `Depth` field. -/
def CallNode.Depth : CallNode → Nat
  | .mk _ _ _ d => d

instance : Inhabited CallNode := ⟨.mk default [] 0 0⟩

/-- `CallTree.getFunctionKey` (builder.go:134-139) — note: no line number,
unlike the analyzer's identity key. -/
def getFunctionKey (fn : analyzer.Function) : String :=
  if fn.Receiver ≠ "" then fn.Package ++ "." ++ fn.Receiver ++ "." ++ fn.Name
  else fn.Package ++ "." ++ fn.Name

/-- One step of caller grouping: add a call site to its caller's group. -/
def groupAdd (groups : List (analyzer.Function × List analyzer.CallSite))
    (cs : analyzer.CallSite) : List (analyzer.Function × List analyzer.CallSite) :=
  match groups with
  | [] => [(cs.Caller, [cs])]
  | (f, ss) :: rest =>
    if f == cs.Caller then (f, ss ++ [cs]) :: rest else (f, ss) :: groupAdd rest cs

/-- `CallTree.groupCallSitesByCaller` (builder.go:68-74).  Go's map is
keyed by `*Function` pointer and iterated in unspecified order; here groups
are listed in first-occurrence order (children are sorted afterwards
anyway, builder.go:63 and 105). -/
def groupCallSitesByCaller (callSites : List analyzer.CallSite) :
    List (analyzer.Function × List analyzer.CallSite) :=
  callSites.foldl groupAdd []

/-- `CallTree.filterTestCallers` (builder.go:108-116). -/
def filterTestCallers (callSites : List analyzer.CallSite) : List analyzer.CallSite :=
  callSites.filter (fun cs => !cs.Caller.IsTest)

/-- The `less` comparator of `CallTree.sortChildren` (builder.go:118-132):
strict lexicographic on (package, file, name, line). -/
def nodeLess (x y : CallNode) : Bool :=
  if x.Function.Package ≠ y.Function.Package then
    gostr.strLt x.Function.Package y.Function.Package
  else if x.Function.File ≠ y.Function.File then
    gostr.strLt x.Function.File y.Function.File
  else if x.Function.Name ≠ y.Function.Name then
    gostr.strLt x.Function.Name y.Function.Name
  else x.Function.Line < y.Function.Line

/-- Non-strict order induced by `nodeLess`. -/
def nodeLe (x y : CallNode) : Bool := !(nodeLess y x)

/-- `CallTree.sortChildren` (builder.go:118-132), modelling `sort.Slice`
with the `nodeLess` comparator. -/
def sortChildren (l : List CallNode) : List CallNode := gostr.sortListBy nodeLe l

/-- Worker for `CallTree.buildSubtree` (builder.go:76-106): computes the
children of the node for `fn`, entered at recursion depth `depth` with the
path-local visited set `visited`.  Structural fuel stands in for the
decreasing quantity `21 - depth`; `buildChildren` below supplies it. -/
def buildChildrenAux (a : analyzer.Analyzer) (noTests : Bool) :
    Nat → List String → analyzer.Function → Nat → List CallNode
  | 0, _, _, _ => []
  | fuel + 1, visited, fn, depth =>
    if depth > 20 then []
    else
      let key := getFunctionKey fn
      if visited.contains key then []
      else
        let callSites := analyzer.GetCallersOf a fn
        let callSites := if noTests then filterTestCallers callSites else callSites
        let callerGroups := groupCallSitesByCaller callSites
        sortChildren (callerGroups.map (fun gp =>
          CallNode.mk gp.1
            (buildChildrenAux a noTests fuel (key :: visited) gp.1 (depth + 1))
            gp.2.length depth))

/-- `CallTree.buildSubtree` (builder.go:76-106), child-list view: in Go the
call `buildSubtree(node, depth)` fills `node.Children`; here the filled
child list is returned.  The visited map is path-local (set on entry,
cleared by `defer` on exit), hence a plain parameter. -/
def buildChildren (a : analyzer.Analyzer) (noTests : Bool) (visited : List String)
    (fn : analyzer.Function) (depth : Nat) : List CallNode :=
  buildChildrenAux a noTests (21 - depth) visited fn depth

/-- `CallTree.Build` (builder.go:35-66). -/
def Build (a : analyzer.Analyzer) (noTests : Bool) (targetSignature : String) :
    Except String CallNode :=
  match analyzer.FindCallers a targetSignature noTests with
  | .error e => .error e
  | .ok callSites =>
    match callSites with
    | [] => .error ("no callers found for signature: " ++ targetSignature)
    | cs0 :: _ =>
      let targetFunc := cs0.Callee
      let callerGroups := groupCallSitesByCaller callSites
      let children := callerGroups.map (fun gp =>
        CallNode.mk gp.1 (buildChildren a noTests [] gp.1 2) gp.2.length 1)
      .ok (CallNode.mk targetFunc (sortChildren children) 0 0)

end tree

/-! ### Concrete fixtures (modelled on `tests/fixtures/testproject`) -/

namespace fixtures

open analyzer

/-- Declaration of `func TargetFunction(x int)` at main.go:10. -/
def declTarget : FuncDeclAst :=
  { Name := "TargetFunction"
    Recv := []
    Params := [⟨["x"], .ident "int"⟩]
    Line := 10 }

/-- Declaration of the plain caller `func UtilityFunction()` at util.go:4. -/
def declUtility : FuncDeclAst :=
  { Name := "UtilityFunction"
    Recv := []
    Params := []
    Line := 4 }

/-- Declaration of a test caller `func TestTarget(t *testing.T)`. -/
def declTestCaller : FuncDeclAst :=
  { Name := "TestTarget"
    Recv := []
    Params := [⟨["t"], .star (.sel (.ident "testing") "T")⟩]
    Line := 7 }

/-- The catalog entry for `TargetFunction`. -/
def fTarget : Function := createFunction declTarget "main" "main.go"

/-- The catalog entry for `UtilityFunction`. -/
def fUtility : Function := createFunction declUtility "main" "util.go"

/-- The catalog entry for the test caller (lives in a `_test.go` file). -/
def fTestCaller : Function := createFunction declTestCaller "main" "main_test.go"

/-- A body that invokes `TargetFunction` twice (two plain identifier
calls), as in `UtilityFunction` of the fixture project. -/
def twoCallsBody : List CallFun :=
  [.identCall "TargetFunction", .identCall "TargetFunction"]

/-- The call graph after resolving a body with `n` plain calls to
`TargetFunction` inside `UtilityFunction` (same file, so local match). -/
def graphAfterCalls (n : Nat) : CallGraph :=
  resolveBody [fUtility, fTarget] fUtility [fUtility, fTarget]
    (List.replicate n (.identCall "TargetFunction")) []

/-- Analyzer state with the target and one caller that calls it `n` times. -/
def analyzerCalls (n : Nat) : Analyzer :=
  { functions := [fUtility, fTarget], callGraph := graphAfterCalls n }

/-- The query used throughout: matches exactly `TargetFunction`. -/
def queryTarget : String := "func TargetFunction(x int)"

end fixtures


/-! ### Derived notions used by the theorems -/

namespace analyzer

/-- The global candidate set of `processCallExpr` when a receiver-variable
hint is available (parser.go:409-419): methods with the queried name, a
non-empty receiver, and a heuristically compatible receiver type. -/
def candFilter (catalog : List Function) (varName method : String) : List Function :=
  catalog.filter (fun fn =>
    fn.Name == method && fn.Receiver ≠ "" && couldBeReceiver varName fn.Receiver)

/-- The parameter-type multiset rendering asserted by the spec (one type
token per declared name). -/
def specParamTypes (params : List FieldAst) : List String :=
  params.foldl (fun acc field =>
    let t := formatType field.Typ
    if field.Names.length > 0 then acc ++ field.Names.map (fun _ => t)
    else acc ++ [t]) []

/-- Modelled from the spec: the canonical signature shape the spec asserts,
`func [(recv type)] name(type[, type...])`, built purely from parameter
types.  Used only to compare the implementation's `buildSignature` against
the spec's claim. -/
def specCanonicalSignature (fn : FuncDeclAst) : String :=
  "func " ++
  (match fn.Recv.head? with
   | some recv => "(" ++ formatType recv.Typ ++ ") "
   | none => "") ++
  fn.Name ++ "(" ++ gostr.joinSep (specParamTypes fn.Params) ", " ++ ")"

/-- The call-graph invariant of claim C8: for every callee key, the stored
call sites have pairwise distinct caller keys. -/
def CallersNodup (g : CallGraph) : Prop :=
  ∀ k, ((graphLoad g k).getD []).Pairwise
    (fun c1 c2 => getFunctionKey c1.Caller ≠ getFunctionKey c2.Caller)

end analyzer

namespace tree

mutual
/-- Height of a call-tree node (a leaf has height 1). -/
def CallNode.height : CallNode → Nat
  | .mk _ cs _ _ => 1 + heightList cs

/-- Height of a forest (empty forest: 0). -/
def heightList : List CallNode → Nat
  | [] => 0
  | c :: cs => max c.height (heightList cs)
end

/-- Strict lexicographic comparison of the `(package, file, name, line)`
tuples of two nodes — the ordering the spec asserts for siblings. -/
def tupleLtB (x y : CallNode) : Bool :=
  gostr.strLt x.Function.Package y.Function.Package ||
  (x.Function.Package == y.Function.Package &&
    (gostr.strLt x.Function.File y.Function.File ||
     (x.Function.File == y.Function.File &&
       (gostr.strLt x.Function.Name y.Function.Name ||
        (x.Function.Name == y.Function.Name &&
          decide (x.Function.Line < y.Function.Line))))))

/-- Non-strict tuple comparison: strictly smaller or equal on all four
components. -/
def tupleLeB (x y : CallNode) : Bool :=
  tupleLtB x y ||
  (x.Function.Package == y.Function.Package &&
   x.Function.File == y.Function.File &&
   x.Function.Name == y.Function.Name &&
   x.Function.Line == y.Function.Line)

/-- Adjacent-pair ascending check for a sibling list. -/
def chainLeB : List CallNode → Bool
  | [] => true
  | [_] => true
  | a :: b :: rest => tupleLeB a b && chainLeB (b :: rest)

mutual
/-- Every sibling list in the tree is ascending by
`(package, file, name, line)`. -/
def sortedNode : CallNode → Bool
  | .mk _ cs _ _ => chainLeB cs && sortedList cs

/-- `sortedNode` over a forest. -/
def sortedList : List CallNode → Bool
  | [] => true
  | c :: cs => sortedNode c && sortedList cs
end

/-- `OccursIn n t`: `n` is a node of the tree `t` (reflexive). -/
inductive OccursIn : CallNode → CallNode → Prop
  | refl (t : CallNode) : OccursIn t t
  | child {n c t : CallNode} : c ∈ t.Children → OccursIn n c → OccursIn n t

/-- `StrictBelow n t`: `n` is a node of `t` other than (an occurrence at)
the root — it lies inside one of the root's child subtrees. -/
def StrictBelow (n t : CallNode) : Prop := ∃ c ∈ t.Children, OccursIn n c

/-- Claim C10 as stated: on every root-to-node path of `t`, at most one
node per `(package, receiver, name)` triple is expanded — i.e. whenever a
node `Y` lies strictly below a node `X` with the same builder key, `Y` has
no children. -/
def pathTriplesOnce (t : CallNode) : Prop :=
  ∀ X, OccursIn X t → ∀ Y, StrictBelow Y X →
    getFunctionKey X.Function = getFunctionKey Y.Function → Y.Children = []

mutual
/-- The guard invariant that `buildSubtree` maintains: relative to the
visited set `v` in force when the node was created, a node whose builder
key is already in `v` has no children, and its children satisfy the same
invariant under `v` extended with the node's own key. -/
def guardOkNode (v : List String) : CallNode → Prop
  | .mk fn cs _ _ =>
    (v.contains (getFunctionKey fn) = true → cs = []) ∧
    guardOkList (getFunctionKey fn :: v) cs

/-- `guardOkNode` over a forest (shared context). -/
def guardOkList (v : List String) : List CallNode → Prop
  | [] => True
  | c :: cs => guardOkNode v c ∧ guardOkList v cs
end

/-- The sort key of a node: its `(package, file, name, line)` tuple. -/
def nodeKey (x : CallNode) : String × String × String × Nat :=
  (x.Function.Package, x.Function.File, x.Function.Name, x.Function.Line)

/-- The strict lexicographic comparator on sort keys. -/
def keyLtB : (String × String × String × Nat) → (String × String × String × Nat) → Bool :=
  gostr.lexComb gostr.strLt
    (gostr.lexComb gostr.strLt (gostr.lexComb gostr.strLt gostr.natLtB))

/-- Unwrap a successful build result (used only to name concrete trees in
witnesses). -/
def treeOf (r : Except String CallNode) : CallNode :=
  match r with
  | .ok t => t
  | .error _ => default

end tree

namespace fixtures

open analyzer

/-- Call graph in which `TargetFunction` calls itself. -/
def loopGraph : CallGraph := addCallSite [] fTarget fTarget

/-- Analyzer for the direct-recursion scenario. -/
def loopAnalyzer : Analyzer := { functions := [fTarget], callGraph := loopGraph }

/-- The tree `Build` produces for the direct-recursion scenario: the root
`TargetFunction` has a child `TargetFunction` (expanded), whose own child
`TargetFunction` is left unexpanded by the cycle guard. -/
def tLoop : tree.CallNode :=
  .mk fTarget [.mk fTarget [.mk fTarget [] 1 2] 1 1] 0 0

/-- Call graph in which only the test function calls `TargetFunction`. -/
def testOnlyGraph : CallGraph := addCallSite [] fTestCaller fTarget

/-- Analyzer for the tests-only-caller scenario. -/
def testOnlyAnalyzer : Analyzer :=
  { functions := [fTestCaller, fTarget], callGraph := testOnlyGraph }

/-- `func (a *Alpha) Foo()` in package `p1`. -/
def fFooAlpha : Function :=
  createFunction { Name := "Foo", Recv := [⟨["a"], .star (.ident "Alpha")⟩],
                   Params := [], Line := 5 } "p1" "alpha.go"

/-- `func (b *Beta) Foo()` in package `p2`. -/
def fFooBeta : Function :=
  createFunction { Name := "Foo", Recv := [⟨["b"], .star (.ident "Beta")⟩],
                   Params := [], Line := 6 } "p2" "beta.go"

/-- `func DoWork()` in package `p3`, the caller of the ambiguous selector. -/
def fDoWork : Function :=
  createFunction { Name := "DoWork", Recv := [], Params := [], Line := 3 } "p3" "work.go"

/-- The catalog for the ambiguous-selector scenario. -/
def catalogC3 : List Function := [fFooAlpha, fFooBeta, fDoWork]

/-- The tree built for the single-caller scenario (used by witnesses). -/
def tUtility : tree.CallNode :=
  tree.treeOf (tree.Build (analyzerCalls 1) false queryTarget)

end fixtures

/-- `func (a *Alpha) Ping()` in package `p1` (witness fixture). -/
def fixtures.fPingAlpha : analyzer.Function :=
  analyzer.createFunction { Name := "Ping", Recv := [⟨["a"], .star (.ident "Alpha")⟩],
                            Params := [], Line := 8 } "p1" "alpha.go"

/-- `func (av *Avocado) Ping()` in package `p2` (witness fixture). -/
def fixtures.fPingAvocado : analyzer.Function :=
  analyzer.createFunction { Name := "Ping", Recv := [⟨["av"], .star (.ident "Avocado")⟩],
                            Params := [], Line := 9 } "p2" "avocado.go"

/-- Catalog with two heuristic-compatible `Ping` candidates. -/
def fixtures.catalogPing : List analyzer.Function :=
  [fixtures.fPingAlpha, fixtures.fPingAvocado]

/-- The `(*Service).Execute`-style declaration used in tests below. -/
def declExecuteTest : analyzer.FuncDeclAst :=
  { Name := "Execute"
    Recv := [⟨["s"], .star (.ident "Service")⟩]
    Params := [⟨["x"], .ident "int"⟩]
    Line := 5 }

/-! ### Sanity checks -/

section gostrTests

example : gostr.strLt "abc" "abd" = true := by decide
example : gostr.strLt "b" "abd" = false := by decide
example : gostr.toLower "InboxMultiplexer" = "inboxmultiplexer" := by decide
example : gostr.trimSpace "  f (x int) " = "f (x int)" := by decide
example : gostr.trimLead "func (r T) f" "func" = " (r T) f" := by decide
example : gostr.index? "f (x int)" "(" = some 2 := by decide
example : gostr.containsStr "inboxmultiplexer" "multiplexer" = true := by decide
example : gostr.replaceAll "a   b" "  " " " = "a  b" := by decide
example : gostr.replaceAll "a  b" "  " " " = "a b" := by decide
example : gostr.fields " x  int " = ["x", "int"] := by decide
example : gostr.joinSep ["a", "b", "c"] ", " = "a, b, c" := by decide
example : gostr.baseName "pkg/file.go" = "file.go" := by decide
example : gostr.natToStr 305 = "305" := by decide
example : gostr.endsWith "foo_test.go" "_test.go" = true := by decide
example : gostr.trimCut "(x int)" "()" = "x int" := by decide
example : gostr.slice "func (r T) f" 1 3 = "un" := by decide

end gostrTests

section parserTests

example : analyzer.couldBeReceiver "r" "*Router" = true := by decide
example : analyzer.couldBeReceiver "tracker" "*InboxTracker" = true := by decide
example : analyzer.couldBeReceiver "im" "*InboxMultiplexer" = true := by decide
example : analyzer.couldBeReceiver "mux" "*InboxMultiplexer" = true := by decide
example : analyzer.couldBeReceiver "x" "Server" = false := by decide
example : analyzer.splitCamelCase "InboxMultiplexer" = ["Inbox", "Multiplexer"] := by decide
example : analyzer.formatType (.star (.ident "Service")) = "*Service" := by decide

example :
    analyzer.buildSignature declExecuteTest = "func (s *Service) Execute (x int)" := by
  decide

end parserTests

section fixtureTests

open analyzer fixtures

example : fTarget.Signature = "func TargetFunction (x int)" := by decide
example : matchesSignature fTarget queryTarget = true := by decide
example : matchesSignature fUtility queryTarget = false := by decide
example : isTestFunction "main_test.go" = true := by decide
example : fTestCaller.IsTest = true := by decide
example : getFunctionKey fTarget = "main#TargetFunction#10" := by decide
example :
    graphAfterCalls 2 =
      [("main#TargetFunction#10", [⟨fUtility, fTarget⟩])] := by decide

end fixtureTests

/-! ### Order and sorting lemmas -/

namespace gostr

theorem lexLt_irrefl : ∀ l : List Char, lexLt l l = false := by
  intro l
  induction l with
  | nil => rfl
  | cons a as ih => simp [lexLt, ih]

theorem lexLt_asymm : ∀ a b : List Char, lexLt a b = true → lexLt b a = false := by
  intro a
  induction a with
  | nil =>
    intro b h
    cases b with
    | nil => simp [lexLt] at h
    | cons c cs => simp [lexLt]
  | cons x xs ih =>
    intro b h
    cases b with
    | nil => simp [lexLt] at h
    | cons y ys =>
      simp only [lexLt] at h ⊢
      rcases lt_trichotomy x y with hxy | hxy | hxy
      · rw [if_neg (lt_asymm hxy), if_pos hxy]
      · subst hxy
        rw [if_neg (lt_irrefl x), if_neg (lt_irrefl x)] at h
        rw [if_neg (lt_irrefl x), if_neg (lt_irrefl x)]
        exact ih ys h
      · rw [if_neg (lt_asymm hxy), if_pos hxy] at h
        exact absurd h (by simp)

theorem lexLt_trans :
    ∀ a b c : List Char, lexLt a b = true → lexLt b c = true → lexLt a c = true := by
  intro a
  induction a with
  | nil =>
    intro b c hab hbc
    cases b with
    | nil => simp [lexLt] at hab
    | cons y ys =>
      cases c with
      | nil => simp [lexLt] at hbc
      | cons z zs => simp [lexLt]
  | cons x xs ih =>
    intro b c hab hbc
    cases b with
    | nil => simp [lexLt] at hab
    | cons y ys =>
      cases c with
      | nil => simp [lexLt] at hbc
      | cons z zs =>
        simp only [lexLt] at hab hbc ⊢
        rcases lt_trichotomy x y with hxy | hxy | hxy
        · rcases lt_trichotomy y z with hyz | hyz | hyz
          · rw [if_pos (lt_trans hxy hyz)]
          · subst hyz; rw [if_pos hxy]
          · rw [if_neg (lt_asymm hyz), if_pos hyz] at hbc
            exact absurd hbc (by simp)
        · subst hxy
          rcases lt_trichotomy x z with hxz | hxz | hxz
          · rw [if_pos hxz]
          · subst hxz
            rw [if_neg (lt_irrefl x), if_neg (lt_irrefl x)] at hab hbc ⊢
            exact ih ys zs hab hbc
          · rw [if_neg (lt_asymm hxz), if_pos hxz] at hbc
            exact absurd hbc (by simp)
        · rw [if_neg (lt_asymm hxy), if_pos hxy] at hab
          exact absurd hab (by simp)

theorem lexLt_eq_of_not :
    ∀ a b : List Char, lexLt a b = false → lexLt b a = false → a = b := by
  intro a
  induction a with
  | nil =>
    intro b hab _
    cases b with
    | nil => rfl
    | cons y ys => simp [lexLt] at hab
  | cons x xs ih =>
    intro b hab hba
    cases b with
    | nil => simp [lexLt] at hba
    | cons y ys =>
      simp only [lexLt] at hab hba
      rcases lt_trichotomy x y with hxy | hxy | hxy
      · rw [if_pos hxy] at hab
        exact absurd hab (by simp)
      · subst hxy
        rw [if_neg (lt_irrefl x), if_neg (lt_irrefl x)] at hab hba
        exact congrArg (x :: ·) (ih ys hab hba)
      · rw [if_neg (lt_asymm hxy), if_pos hxy] at hba
        exact absurd hba (by simp)

theorem strLt_irrefl (s : String) : strLt s s = false := lexLt_irrefl _

theorem strLt_asymm {a b : String} (h : strLt a b = true) : strLt b a = false :=
  lexLt_asymm _ _ h

theorem strLt_trans {a b c : String} (hab : strLt a b = true) (hbc : strLt b c = true) :
    strLt a c = true :=
  lexLt_trans _ _ _ hab hbc

theorem strLt_eq_of_not {a b : String} (hab : strLt a b = false)
    (hba : strLt b a = false) : a = b := by
  have h := lexLt_eq_of_not _ _ hab hba
  cases a; cases b
  simpa [String.toList] using congrArg String.mk h

theorem mem_insBy {le : α → α → Bool} {a x : α} :
    ∀ {l : List α}, x ∈ insBy le a l ↔ x = a ∨ x ∈ l := by
  intro l
  induction l with
  | nil => simp [insBy]
  | cons b bs ih =>
    simp only [insBy]
    by_cases h : le a b = true
    · simp [if_pos h, List.mem_cons]
    · simp only [if_neg h, List.mem_cons, ih]
      tauto

theorem insBy_perm (le : α → α → Bool) (a : α) :
    ∀ l : List α, (insBy le a l).Perm (a :: l) := by
  intro l
  induction l with
  | nil => simp [insBy]
  | cons b bs ih =>
    simp only [insBy]
    by_cases h : le a b = true
    · rw [if_pos h]
    · rw [if_neg h]
      exact (List.Perm.cons b ih).trans (List.Perm.swap a b bs)

theorem sortListBy_perm (le : α → α → Bool) :
    ∀ l : List α, (sortListBy le l).Perm l := by
  intro l
  induction l with
  | nil => exact List.Perm.refl _
  | cons a as ih =>
    exact (insBy_perm le a (sortListBy le as)).trans (List.Perm.cons a ih)

theorem pairwise_insBy {le : α → α → Bool}
    (htot : ∀ a b, le a b = false → le b a = true)
    (htrans : ∀ a b c, le a b = true → le b c = true → le a c = true)
    (a : α) :
    ∀ {l : List α}, l.Pairwise (le · · = true) →
      (insBy le a l).Pairwise (le · · = true) := by
  intro l
  induction l with
  | nil => intro _; simp [insBy]
  | cons b bs ih =>
    intro h
    rcases List.pairwise_cons.mp h with ⟨hb, hbs⟩
    simp only [insBy]
    by_cases hab : le a b = true
    · rw [if_pos hab]
      refine List.pairwise_cons.mpr ⟨?_, h⟩
      intro x hx
      rcases List.mem_cons.mp hx with hx | hx
      · exact hx ▸ hab
      · exact htrans a b x hab (hb x hx)
    · rw [if_neg hab]
      refine List.pairwise_cons.mpr ⟨?_, ih hbs⟩
      intro x hx
      rcases mem_insBy.mp hx with hx | hx
      · exact hx ▸ htot _ _ (Bool.eq_false_iff.mpr hab)
      · exact hb x hx

theorem pairwise_sortListBy {le : α → α → Bool}
    (htot : ∀ a b, le a b = false → le b a = true)
    (htrans : ∀ a b c, le a b = true → le b c = true → le a c = true) :
    ∀ l : List α, (sortListBy le l).Pairwise (le · · = true) := by
  intro l
  induction l with
  | nil => simp [sortListBy]
  | cons a as ih => exact pairwise_insBy htot htrans a ih

theorem find?_min_of_pairwise {le : α → α → Bool} {p : α → Bool}
    (hrefl : ∀ x, le x x = true) :
    ∀ {l : List α}, l.Pairwise (le · · = true) → ∀ {x}, l.find? p = some x →
      ∀ y ∈ l, p y = true → le x y = true := by
  intro l
  induction l with
  | nil => intro _ x hx; simp [List.find?] at hx
  | cons a as ih =>
    intro h x hx y hy hpy
    rcases List.pairwise_cons.mp h with ⟨ha, has⟩
    by_cases hpa : p a = true
    · rw [List.find?_cons_of_pos _ hpa] at hx
      cases hx
      rcases List.mem_cons.mp hy with hy | hy
      · exact hy ▸ hrefl a
      · exact ha y hy
    · rw [List.find?_cons_of_neg _ (by simpa using hpa)] at hx
      rcases List.mem_cons.mp hy with hy | hy
      · exact absurd (hy ▸ hpy) hpa
      · exact ih has hx y hy hpy

end gostr

namespace gostr


theorem lexComb_irrefl [BEq α] [LawfulBEq α] {lt1 : α → α → Bool} {lt2 : β → β → Bool}
    (h1 : ∀ a, lt1 a a = false) (h2 : ∀ b, lt2 b b = false) (p : α × β) :
    lexComb lt1 lt2 p p = false := by
  simp [lexComb, h1, h2]

theorem lexComb_asymm [BEq α] [LawfulBEq α] {lt1 : α → α → Bool} {lt2 : β → β → Bool}
    (hirr1 : ∀ a, lt1 a a = false)
    (hasym1 : ∀ a b, lt1 a b = true → lt1 b a = false)
    (hasym2 : ∀ a b, lt2 a b = true → lt2 b a = false)
    (p q : α × β) (h : lexComb lt1 lt2 p q = true) : lexComb lt1 lt2 q p = false := by
  simp only [lexComb, Bool.or_eq_true, Bool.and_eq_true, beq_iff_eq] at h
  simp only [lexComb, Bool.or_eq_false_iff, Bool.and_eq_false_iff]
  rcases h with h | ⟨he, h2⟩
  · constructor
    · exact hasym1 _ _ h
    · left
      rw [beq_eq_false_iff_ne]
      intro hqp
      rw [hqp] at h
      exact absurd h (by simp [hirr1])
  · rw [he]
    constructor
    · exact hirr1 _
    · right
      exact hasym2 _ _ h2

theorem lexComb_trans [BEq α] [LawfulBEq α] {lt1 : α → α → Bool} {lt2 : β → β → Bool}
    (htr1 : ∀ a b c, lt1 a b = true → lt1 b c = true → lt1 a c = true)
    (htr2 : ∀ a b c, lt2 a b = true → lt2 b c = true → lt2 a c = true)
    (p q r : α × β) (hpq : lexComb lt1 lt2 p q = true)
    (hqr : lexComb lt1 lt2 q r = true) : lexComb lt1 lt2 p r = true := by
  simp only [lexComb, Bool.or_eq_true, Bool.and_eq_true, beq_iff_eq] at hpq hqr ⊢
  rcases hpq with h1 | ⟨he1, h2⟩
  · rcases hqr with g1 | ⟨ge1, g2⟩
    · exact Or.inl (htr1 _ _ _ h1 g1)
    · exact Or.inl (ge1 ▸ h1)
  · rcases hqr with g1 | ⟨ge1, g2⟩
    · exact Or.inl (he1 ▸ g1)
    · exact Or.inr ⟨he1.trans ge1, htr2 _ _ _ h2 g2⟩

theorem lexComb_conn [BEq α] [LawfulBEq α] {lt1 : α → α → Bool} {lt2 : β → β → Bool}
    (hc1 : ∀ a b, lt1 a b = false → lt1 b a = false → a = b)
    (hc2 : ∀ a b, lt2 a b = false → lt2 b a = false → a = b)
    (p q : α × β) (hpq : lexComb lt1 lt2 p q = false)
    (hqp : lexComb lt1 lt2 q p = false) : p = q := by
  simp only [lexComb, Bool.or_eq_false_iff, Bool.and_eq_false_iff] at hpq hqp
  rcases hpq with ⟨h1, h2⟩
  rcases hqp with ⟨g1, g2⟩
  have he : p.1 = q.1 := hc1 _ _ h1 g1
  have he2 : p.2 = q.2 := by
    rcases h2 with h2 | h2
    · rw [beq_eq_false_iff_ne] at h2
      exact absurd he h2
    · rcases g2 with g2 | g2
      · rw [beq_eq_false_iff_ne] at g2
        exact absurd he.symm g2
      · exact hc2 _ _ h2 g2
  exact Prod.ext he he2


theorem natLtB_irrefl (a : Nat) : natLtB a a = false := by simp [natLtB]

theorem natLtB_asymm (a b : Nat) (h : natLtB a b = true) : natLtB b a = false := by
  simp [natLtB] at h ⊢; omega

theorem natLtB_trans (a b c : Nat) (h1 : natLtB a b = true) (h2 : natLtB b c = true) :
    natLtB a c = true := by
  simp [natLtB] at h1 h2 ⊢; omega

theorem natLtB_conn (a b : Nat) (h1 : natLtB a b = false) (h2 : natLtB b a = false) :
    a = b := by
  simp [natLtB] at h1 h2; omega

end gostr

namespace analyzer

theorem fnLe_refl (a : Function) : fnLe a a = true := by
  simp [fnLe, gostr.strLt_irrefl]

theorem fnLe_total (a b : Function) (h : fnLe a b = false) : fnLe b a = true := by
  simp only [fnLe, Bool.not_eq_false'] at h
  simp only [fnLe, Bool.not_eq_true']
  exact gostr.strLt_asymm h

theorem fnLe_trans (a b c : Function) (h1 : fnLe a b = true) (h2 : fnLe b c = true) :
    fnLe a c = true := by
  simp only [fnLe, Bool.not_eq_true'] at h1 h2 ⊢
  by_contra hc
  rw [Bool.not_eq_false] at hc
  by_cases hab : gostr.strLt (getFunctionKey a) (getFunctionKey b) = true
  · exact absurd (gostr.strLt_trans hc hab) (by rw [h2]; simp)
  · have := gostr.strLt_eq_of_not (Bool.eq_false_iff.mpr hab) h1
    rw [this] at hc
    exact absurd hc (by rw [h2]; simp)

theorem graphLoad_store_self (g : CallGraph) (k : String) (v : List CallSite) :
    graphLoad (graphStore g k v) k = some v := by
  induction g with
  | nil => simp [graphStore, graphLoad]
  | cons kv rest ih =>
    obtain ⟨k', v'⟩ := kv
    by_cases h : (k' == k) = true
    · simp [graphStore, graphLoad, h]
    · simp only [graphStore, Bool.not_eq_true] at h ⊢
      rw [if_neg (by simp [h])]
      simpa [graphLoad, h] using ih

theorem graphLoad_store_ne (g : CallGraph) (k : String) (v : List CallSite)
    (k' : String) (h : (k == k') = false) :
    graphLoad (graphStore g k v) k' = graphLoad g k' := by
  induction g with
  | nil => simp [graphStore, graphLoad, h]
  | cons kv rest ih =>
    obtain ⟨k0, v0⟩ := kv
    by_cases h0 : (k0 == k) = true
    · rw [beq_iff_eq] at h0
      subst h0
      simp [graphStore, graphLoad, h]
    · simp only [graphStore]
      rw [if_neg (by simp_all)]
      by_cases h1 : (k0 == k') = true
      · simp [graphLoad, h1]
      · simp only [graphLoad]
        rw [if_neg (by simp_all), if_neg (by simp_all)]
        exact ih


theorem callersNodup_empty : CallersNodup [] := by
  intro k
  simp [graphLoad]

theorem addCallSite_preserves (g : CallGraph) (caller callee : Function)
    (h : CallersNodup g) : CallersNodup (addCallSite g caller callee) := by
  unfold addCallSite
  by_cases hany : (((graphLoad g (getFunctionKey callee)).getD []).any
      (fun cs => getFunctionKey cs.Caller == getFunctionKey caller)) = true
  · rw [if_pos hany]
    exact h
  · rw [if_neg hany]
    intro k
    by_cases hk : (getFunctionKey callee == k) = true
    · rw [beq_iff_eq] at hk
      subst hk
      rw [graphLoad_store_self]
      simp only [Option.getD_some]
      rw [List.pairwise_append]
      refine ⟨h _, by simp, ?_⟩
      intro a ha b hb
      simp only [List.mem_singleton] at hb
      subst hb
      rw [List.any_eq_true] at hany
      push_neg at hany
      intro hcontra
      exact hany a ha (by simp [hcontra])
    · rw [graphLoad_store_ne _ _ _ _ (by simp_all)]
      exact h k

theorem addCallSite_idem (g : CallGraph) (caller callee : Function) :
    addCallSite (addCallSite g caller callee) caller callee =
      addCallSite g caller callee := by
  by_cases hany : (((graphLoad g (getFunctionKey callee)).getD []).any
      (fun cs => getFunctionKey cs.Caller == getFunctionKey caller)) = true
  · have hinner : addCallSite g caller callee = g := by
      rw [addCallSite, if_pos hany]
    rw [hinner]
    exact hinner
  · have hfirst : addCallSite g caller callee =
        graphStore g (getFunctionKey callee)
          (((graphLoad g (getFunctionKey callee)).getD []) ++
            [CallSite.mk caller callee]) := by
      rw [addCallSite, if_neg hany]
    conv_lhs => rw [hfirst, addCallSite, graphLoad_store_self]
    rw [if_pos (by simp [List.any_append]), ← hfirst]

end analyzer

namespace tree


theorem keyLtB_irrefl (p : String × String × String × Nat) : keyLtB p p = false := by
  refine gostr.lexComb_irrefl gostr.strLt_irrefl (fun b => ?_) p
  refine gostr.lexComb_irrefl gostr.strLt_irrefl (fun c => ?_) b
  exact gostr.lexComb_irrefl gostr.strLt_irrefl gostr.natLtB_irrefl c

theorem keyLtB_asymm (p q : String × String × String × Nat)
    (h : keyLtB p q = true) : keyLtB q p = false := by
  refine gostr.lexComb_asymm gostr.strLt_irrefl (fun a b h => @gostr.strLt_asymm a b h)
    (fun b c hh => ?_) p q h
  refine gostr.lexComb_asymm gostr.strLt_irrefl (fun a b h => @gostr.strLt_asymm a b h)
    (fun b' c' hh' => ?_) b c hh
  exact gostr.lexComb_asymm gostr.strLt_irrefl (fun a b h => @gostr.strLt_asymm a b h)
    gostr.natLtB_asymm b' c' hh'

theorem keyLtB_trans (p q r : String × String × String × Nat)
    (h1 : keyLtB p q = true) (h2 : keyLtB q r = true) : keyLtB p r = true := by
  refine gostr.lexComb_trans (fun a b c ha hb => @gostr.strLt_trans a b c ha hb) (fun b c d hb hc => ?_)
    p q r h1 h2
  refine gostr.lexComb_trans (fun a b c ha hb => @gostr.strLt_trans a b c ha hb) (fun b' c' d' hb' hc' => ?_)
    b c d hb hc
  exact gostr.lexComb_trans (fun a b c ha hb => @gostr.strLt_trans a b c ha hb) gostr.natLtB_trans
    b' c' d' hb' hc'

theorem keyLtB_conn (p q : String × String × String × Nat)
    (h1 : keyLtB p q = false) (h2 : keyLtB q p = false) : p = q := by
  refine gostr.lexComb_conn (fun a b ha hb => @gostr.strLt_eq_of_not a b ha hb) (fun b c hb hc => ?_)
    p q h1 h2
  refine gostr.lexComb_conn (fun a b ha hb => @gostr.strLt_eq_of_not a b ha hb) (fun b' c' hb' hc' => ?_)
    b c hb hc
  exact gostr.lexComb_conn (fun a b ha hb => @gostr.strLt_eq_of_not a b ha hb) gostr.natLtB_conn
    b' c' hb' hc'

theorem nodeLess_eq_keyLtB (x y : CallNode) :
    nodeLess x y = keyLtB (nodeKey x) (nodeKey y) := by
  unfold nodeLess keyLtB nodeKey gostr.lexComb gostr.natLtB
  by_cases hp : x.Function.Package = y.Function.Package
  · rw [if_neg (by simpa using hp)]
    rw [hp]
    simp only [gostr.strLt_irrefl, beq_self_eq_true, Bool.false_or, Bool.true_and]
    by_cases hf : x.Function.File = y.Function.File
    · rw [if_neg (by simpa using hf), hf]
      simp only [gostr.strLt_irrefl, beq_self_eq_true, Bool.false_or, Bool.true_and]
      by_cases hn : x.Function.Name = y.Function.Name
      · rw [if_neg (by simpa using hn), hn]
        simp [gostr.strLt_irrefl]
      · rw [if_pos hn]
        by_cases hlt : gostr.strLt x.Function.Name y.Function.Name = true
        · simp [hlt]
        · simp only [Bool.not_eq_true] at hlt
          simp [hlt, beq_eq_false_iff_ne.mpr hn]
    · rw [if_pos hf]
      by_cases hlt : gostr.strLt x.Function.File y.Function.File = true
      · simp [hlt]
      · simp only [Bool.not_eq_true] at hlt
        simp [hlt, beq_eq_false_iff_ne.mpr hf]
  · rw [if_pos hp]
    by_cases hlt : gostr.strLt x.Function.Package y.Function.Package = true
    · simp [hlt]
    · simp only [Bool.not_eq_true] at hlt
      simp [hlt, beq_eq_false_iff_ne.mpr hp]

theorem nodeLe_refl (x : CallNode) : nodeLe x x = true := by
  simp [nodeLe, nodeLess_eq_keyLtB, keyLtB_irrefl]

theorem nodeLe_total (x y : CallNode) (h : nodeLe x y = false) : nodeLe y x = true := by
  simp only [nodeLe, Bool.not_eq_false'] at h
  simp only [nodeLe, Bool.not_eq_true']
  rw [nodeLess_eq_keyLtB] at h ⊢
  exact keyLtB_asymm _ _ h

theorem nodeLe_trans (x y z : CallNode) (h1 : nodeLe x y = true)
    (h2 : nodeLe y z = true) : nodeLe x z = true := by
  simp only [nodeLe, Bool.not_eq_true'] at h1 h2 ⊢
  rw [nodeLess_eq_keyLtB] at h1 h2 ⊢
  by_contra hc
  rw [Bool.not_eq_false] at hc
  by_cases hab : keyLtB (nodeKey x) (nodeKey y) = true
  · exact absurd (keyLtB_trans _ _ _ hc hab) (by rw [h2]; simp)
  · have := keyLtB_conn _ _ (Bool.eq_false_iff.mpr hab) h1
    rw [this] at hc
    exact absurd hc (by rw [h2]; simp)

theorem tupleLtB_eq_keyLtB (x y : CallNode) :
    tupleLtB x y = keyLtB (nodeKey x) (nodeKey y) := rfl

theorem nodeKey_eq_iff (x y : CallNode) :
    nodeKey x = nodeKey y ↔
      (x.Function.Package == y.Function.Package &&
       x.Function.File == y.Function.File &&
       x.Function.Name == y.Function.Name &&
       x.Function.Line == y.Function.Line) = true := by
  simp only [nodeKey, Prod.mk.injEq, Bool.and_eq_true, beq_iff_eq]
  tauto

theorem nodeLe_eq_tupleLeB (x y : CallNode) : nodeLe x y = tupleLeB x y := by
  simp only [nodeLe, tupleLeB, tupleLtB_eq_keyLtB]
  rw [nodeLess_eq_keyLtB]
  by_cases hxy : keyLtB (nodeKey x) (nodeKey y) = true
  · rw [hxy, keyLtB_asymm _ _ hxy]
    rfl
  · rw [Bool.not_eq_true] at hxy
    rw [hxy]
    by_cases hyx : keyLtB (nodeKey y) (nodeKey x) = true
    · rw [hyx]
      have hne : ¬ nodeKey x = nodeKey y := by
        intro he
        rw [he] at hyx
        exact absurd hyx (by rw [keyLtB_irrefl]; simp)
      rw [Bool.false_or]
      have : (x.Function.Package == y.Function.Package &&
          x.Function.File == y.Function.File &&
          x.Function.Name == y.Function.Name &&
          x.Function.Line == y.Function.Line) = false := by
        rw [← Bool.not_eq_true]
        intro hb
        exact hne ((nodeKey_eq_iff x y).mpr hb)
      rw [this]
      rfl
    · rw [Bool.not_eq_true] at hyx
      rw [hyx]
      have he := keyLtB_conn _ _ hxy hyx
      rw [Bool.false_or, ((nodeKey_eq_iff x y).mp he)]
      rfl

theorem chainLeB_of_pairwise :
    ∀ {l : List CallNode}, l.Pairwise (fun a b => nodeLe a b = true) →
      chainLeB l = true := by
  intro l
  induction l with
  | nil => intro _; rfl
  | cons a as ih =>
    intro h
    rcases List.pairwise_cons.mp h with ⟨ha, has⟩
    cases as with
    | nil => rfl
    | cons b bs =>
      simp only [chainLeB, Bool.and_eq_true]
      exact ⟨(nodeLe_eq_tupleLeB a b) ▸ ha b (List.mem_cons_self b bs), ih has⟩

theorem pairwise_sortChildren (l : List CallNode) :
    (sortChildren l).Pairwise (fun a b => nodeLe a b = true) :=
  gostr.pairwise_sortListBy (fun a b => nodeLe_total a b) (fun a b c => nodeLe_trans a b c) l

theorem sortChildren_perm (l : List CallNode) : (sortChildren l).Perm l :=
  gostr.sortListBy_perm nodeLe l

theorem mem_sortChildren {x : CallNode} {l : List CallNode} :
    x ∈ sortChildren l ↔ x ∈ l :=
  (sortChildren_perm l).mem_iff

end tree

namespace tree

theorem height_le_heightList {x : CallNode} :
    ∀ {l : List CallNode}, x ∈ l → x.height ≤ heightList l := by
  intro l
  induction l with
  | nil => intro h; cases h
  | cons c cs ih =>
    intro h
    rcases List.mem_cons.mp h with h | h
    · subst h
      simp only [heightList]
      exact le_max_left _ _
    · simp only [heightList]
      exact le_trans (ih h) (le_max_right _ _)

theorem heightList_le_of_forall {n : Nat} :
    ∀ {l : List CallNode}, (∀ x ∈ l, x.height ≤ n) → heightList l ≤ n := by
  intro l
  induction l with
  | nil => intro _; simp [heightList]
  | cons c cs ih =>
    intro h
    simp only [heightList, max_le_iff]
    exact ⟨h c (List.mem_cons_self c cs), ih (fun x hx => h x (List.mem_cons_of_mem c hx))⟩

theorem heightList_sortChildren_le (l : List CallNode) :
    heightList (sortChildren l) ≤ heightList l :=
  heightList_le_of_forall (fun _ hx => height_le_heightList (mem_sortChildren.mp hx))

theorem heightList_buildChildrenAux (a : analyzer.Analyzer) (nt : Bool) :
    ∀ (fuel : Nat) (v : List String) (fn : analyzer.Function) (d : Nat),
      heightList (buildChildrenAux a nt fuel v fn d) ≤ fuel := by
  intro fuel
  induction fuel with
  | zero => intro v fn d; simp [buildChildrenAux, heightList]
  | succ k ih =>
    intro v fn d
    simp only [buildChildrenAux]
    by_cases hd : d > 20
    · rw [if_pos hd]
      simp [heightList]
    · rw [if_neg hd]
      by_cases hv : v.contains (getFunctionKey fn) = true
      · rw [if_pos hv]
        simp [heightList]
      · rw [if_neg hv]
        refine le_trans (heightList_sortChildren_le _) ?_
        refine heightList_le_of_forall ?_
        intro x hx
        rcases List.mem_map.mp hx with ⟨gp, _, hgp⟩
        subst hgp
        simp only [CallNode.height]
        have := ih (getFunctionKey fn :: v) gp.1 (d + 1)
        omega

theorem buildChildrenAux_visited (a : analyzer.Analyzer) (nt : Bool)
    (fuel : Nat) (v : List String) (fn : analyzer.Function) (d : Nat)
    (h : v.contains (getFunctionKey fn) = true) :
    buildChildrenAux a nt fuel v fn d = [] := by
  cases fuel with
  | zero => rfl
  | succ k =>
    simp only [buildChildrenAux]
    by_cases hd : d > 20
    · rw [if_pos hd]
    · rw [if_neg hd, if_pos h]

theorem heightList_buildChildren (a : analyzer.Analyzer) (nt : Bool)
    (v : List String) (fn : analyzer.Function) (d : Nat) :
    heightList (buildChildren a nt v fn d) ≤ 21 - d :=
  heightList_buildChildrenAux a nt (21 - d) v fn d

theorem buildChildren_visited (a : analyzer.Analyzer) (nt : Bool)
    (v : List String) (fn : analyzer.Function) (d : Nat)
    (h : v.contains (getFunctionKey fn) = true) :
    buildChildren a nt v fn d = [] :=
  buildChildrenAux_visited a nt (21 - d) v fn d h

theorem sortedList_forall :
    ∀ {l : List CallNode}, sortedList l = true ↔ ∀ x ∈ l, sortedNode x = true := by
  intro l
  induction l with
  | nil => simp [sortedList]
  | cons c cs ih =>
    simp only [sortedList, Bool.and_eq_true, ih, List.mem_cons]
    constructor
    · rintro ⟨hc, hcs⟩ x (hx | hx)
      · exact hx ▸ hc
      · exact hcs x hx
    · intro h
      exact ⟨h c (Or.inl rfl), fun x hx => h x (Or.inr hx)⟩

theorem sorted_buildChildrenAux (a : analyzer.Analyzer) (nt : Bool) :
    ∀ (fuel : Nat) (v : List String) (fn : analyzer.Function) (d : Nat),
      chainLeB (buildChildrenAux a nt fuel v fn d) = true ∧
      sortedList (buildChildrenAux a nt fuel v fn d) = true := by
  intro fuel
  induction fuel with
  | zero => intro v fn d; exact ⟨rfl, rfl⟩
  | succ k ih =>
    intro v fn d
    simp only [buildChildrenAux]
    by_cases hd : d > 20
    · rw [if_pos hd]
      exact ⟨rfl, rfl⟩
    · rw [if_neg hd]
      by_cases hv : v.contains (getFunctionKey fn) = true
      · rw [if_pos hv]
        exact ⟨rfl, rfl⟩
      · rw [if_neg hv]
        constructor
        · exact chainLeB_of_pairwise (pairwise_sortChildren _)
        · rw [sortedList_forall]
          intro x hx
          rcases List.mem_map.mp (mem_sortChildren.mp hx) with ⟨gp, _, hgp⟩
          subst hgp
          simp only [sortedNode, Bool.and_eq_true]
          exact ⟨(ih (getFunctionKey fn :: v) gp.1 (d + 1)).1,
                 (ih (getFunctionKey fn :: v) gp.1 (d + 1)).2⟩

theorem guardOkList_forall :
    ∀ {v : List String} {l : List CallNode},
      guardOkList v l ↔ ∀ c ∈ l, guardOkNode v c := by
  intro v l
  induction l with
  | nil => simp [guardOkList]
  | cons c cs ih =>
    simp only [guardOkList, ih, List.mem_cons]
    constructor
    · rintro ⟨hc, hcs⟩ x (hx | hx)
      · exact hx ▸ hc
      · exact hcs x hx
    · intro h
      exact ⟨h c (Or.inl rfl), fun x hx => h x (Or.inr hx)⟩

theorem guardOk_buildChildrenAux (a : analyzer.Analyzer) (nt : Bool) :
    ∀ (fuel : Nat) (v : List String) (fn : analyzer.Function) (d : Nat),
      guardOkList (getFunctionKey fn :: v) (buildChildrenAux a nt fuel v fn d) := by
  intro fuel
  induction fuel with
  | zero => intro v fn d; trivial
  | succ k ih =>
    intro v fn d
    simp only [buildChildrenAux]
    by_cases hd : d > 20
    · rw [if_pos hd]; trivial
    · rw [if_neg hd]
      by_cases hv : v.contains (getFunctionKey fn) = true
      · rw [if_pos hv]; trivial
      · rw [if_neg hv]
        rw [guardOkList_forall]
        intro c hc
        rcases List.mem_map.mp (mem_sortChildren.mp hc) with ⟨gp, _, hgp⟩
        subst hgp
        refine ⟨?_, ?_⟩
        · intro hcon
          exact buildChildrenAux_visited a nt k _ gp.1 (d + 1) hcon
        · exact ih (getFunctionKey fn :: v) gp.1 (d + 1)

theorem guardOk_sink {Y n : CallNode} (hocc : OccursIn Y n) :
    ∀ v : List String, guardOkNode v n →
      v.contains (getFunctionKey Y.Function) = true → Y.Children = [] := by
  induction hocc with
  | refl =>
    intro v hok hc
    cases Y with
    | mk fn cs u d => exact hok.1 hc
  | child hmem hocc2 ih =>
    intro v hok hc
    rename_i c t
    cases t with
    | mk fn cs u d =>
      have hchild : guardOkNode (getFunctionKey fn :: v) c :=
        (guardOkList_forall.mp hok.2) c hmem
      refine ih _ hchild ?_
      simp only [List.contains_cons, Bool.or_eq_true]
      right
      exact hc

theorem guardOk_below {X n : CallNode} (hocc : OccursIn X n) :
    ∀ v : List String, guardOkNode v n →
      ∀ {Y : CallNode}, StrictBelow Y X →
        getFunctionKey X.Function = getFunctionKey Y.Function →
        Y.Children = [] := by
  induction hocc with
  | refl =>
    intro v hok Y hsb hkey
    rcases hsb with ⟨c, hc, hocc2⟩
    cases X with
    | mk fn cs u d =>
      have hchild : guardOkNode (getFunctionKey fn :: v) c :=
        (guardOkList_forall.mp hok.2) c hc
      refine guardOk_sink hocc2 _ hchild ?_
      simp only [List.contains_cons, Bool.or_eq_true]
      left
      simp only [CallNode.Function] at hkey
      rw [beq_iff_eq]
      exact hkey.symm
  | child hmem hocc2 ih =>
    intro v hok Y hsb hkey
    rename_i c t
    cases t with
    | mk fn cs u d =>
      have hchild : guardOkNode (getFunctionKey fn :: v) c :=
        (guardOkList_forall.mp hok.2) c hmem
      exact ih _ hchild hsb hkey

end tree

namespace gostr

theorem string_mk_toList (s : String) : String.mk s.toList = s := rfl

theorem toList_append (s t : String) : (s ++ t).toList = s.toList ++ t.toList :=
  String.data_append s t

theorem fieldsAux_nows_append (rest : List Char) :
    ∀ (l cur : List Char), (∀ c ∈ l, c.isWhitespace = false) →
      fieldsAux (l ++ rest) cur = fieldsAux rest (l.reverse ++ cur) := by
  intro l
  induction l with
  | nil => intro cur _; simp
  | cons c l' ih =>
    intro cur h
    have hc : c.isWhitespace = false := h c (List.mem_cons_self c l')
    simp only [List.cons_append, fieldsAux]
    rw [if_neg (by simp [hc])]
    simp only [List.append_eq]
    rw [ih (c :: cur) (fun x hx => h x (List.mem_cons_of_mem c hx))]
    simp

theorem fields_two_words (v t : String) (hv : v.toList ≠ []) (ht : t.toList ≠ [])
    (hvw : ∀ c ∈ v.toList, c.isWhitespace = false)
    (htw : ∀ c ∈ t.toList, c.isWhitespace = false) :
    fields (v ++ " " ++ t) = [v, t] := by
  have hone : (" " : String).toList = [' '] := rfl
  have hsplit : (v ++ " " ++ t).toList = v.toList ++ (' ' :: t.toList) := by
    rw [toList_append, toList_append, hone, List.append_assoc]
    rfl
  unfold fields
  rw [hsplit, fieldsAux_nows_append _ _ _ hvw]
  simp only [List.append_nil, fieldsAux]
  rw [if_pos (by decide)]
  rw [if_neg (by simp only [List.isEmpty_iff, List.reverse_eq_nil_iff]; exact hv)]
  rw [List.reverse_reverse, string_mk_toList]
  have htt : fieldsAux t.toList [] = [t] := by
    have hnil : t.toList = t.toList ++ [] := by simp
    rw [hnil, fieldsAux_nows_append _ _ _ (by simpa using htw)]
    simp only [List.append_nil, fieldsAux]
    rw [if_neg (by simp only [List.isEmpty_iff, List.reverse_eq_nil_iff]; exact ht)]
    rw [List.reverse_reverse, string_mk_toList]
  rw [htt]

theorem foldl_replicate_idem {γ β : Type} (f : γ → β → γ) (c : β)
    (hf : ∀ x, f (f x c) c = f x c) :
    ∀ (n : Nat) (x : γ), List.foldl f (f x c) (List.replicate n c) = f x c := by
  intro n
  induction n with
  | zero => intro x; rfl
  | succ k ih =>
    intro x
    rw [List.replicate_succ, List.foldl_cons, hf, ih]

end gostr

/-! ### Claim theorems -/

/-- C4: the claim (and the code's own comment at parser.go:508) says
`couldBeReceiver("r", "*inboxMultiplexer")` is true because `r` matches
multiplexer-ish types.  The code returns `false`: the curated table is
guarded by `strings.HasPrefix(typeLower, varLower)` (parser.go:503), so for
a type that does not start with the letter the table is never consulted.
The second conjunct shows the prefix-guarded path that does fire. -/
theorem C4_couldBeReceiver_eval :
    analyzer.couldBeReceiver "r" "*inboxMultiplexer" = false ∧
    analyzer.couldBeReceiver "r" "*Router" = true := by
  constructor
  · decide
  · decide

/-- C6: whenever `FindCallers` succeeds but returns zero call sites (in
particular after the exclude-tests filter), `Build` fails with the
specific "no callers found" error instead of producing an empty tree. -/
theorem C6_build_noCallers_error (a : analyzer.Analyzer) (nt : Bool) (sig : String)
    (h : analyzer.FindCallers a sig nt = .ok []) :
    tree.Build a nt sig = .error ("no callers found for signature: " ++ sig) := by
  unfold tree.Build
  rw [h]

/-- C6 witness: `-no-test` on a target called only from a `_test.go` file
yields exactly the "no callers found" error. -/
theorem C6_witness :
    analyzer.FindCallers fixtures.testOnlyAnalyzer fixtures.queryTarget true = .ok [] ∧
    tree.Build fixtures.testOnlyAnalyzer true fixtures.queryTarget =
      .error ("no callers found for signature: " ++ fixtures.queryTarget) :=
  ⟨rfl, C6_build_noCallers_error fixtures.testOnlyAnalyzer true fixtures.queryTarget rfl⟩

/-- C8: after any sequence of edge insertions starting from the empty call
graph (concurrent histories serialize through the mutex, parser.go:657),
no callee's call-site list holds two entries with the same caller key, and
a repeated insertion leaves the graph unchanged (idempotence). -/
theorem C8_callGraph_nodup_and_idem :
    (∀ (ops : List (analyzer.Function × analyzer.Function)) (k : String),
      ((analyzer.graphLoad
          (ops.foldl (fun g p => analyzer.addCallSite g p.1 p.2) []) k).getD []).Pairwise
        (fun c1 c2 =>
          analyzer.getFunctionKey c1.Caller ≠ analyzer.getFunctionKey c2.Caller)) ∧
    (∀ (g : analyzer.CallGraph) (caller callee : analyzer.Function),
      analyzer.addCallSite (analyzer.addCallSite g caller callee) caller callee =
        analyzer.addCallSite g caller callee) := by
  constructor
  · intro ops k
    have hstep : ∀ (l : List (analyzer.Function × analyzer.Function))
        (g : analyzer.CallGraph), analyzer.CallersNodup g →
        analyzer.CallersNodup (l.foldl (fun g p => analyzer.addCallSite g p.1 p.2) g) := by
      intro l
      induction l with
      | nil => intro g hg; exact hg
      | cons p ps ih =>
        intro g hg
        exact ih _ (analyzer.addCallSite_preserves g p.1 p.2 hg)
    exact hstep ops [] analyzer.callersNodup_empty k
  · exact analyzer.addCallSite_idem

/-- C1 counterexample: `UtilityFunction` invokes `TargetFunction` N = 2
times in its body, but the built tree's single child node for it carries
`Usages = 1`, not 2 — `addCallSite` deduplicates by caller key
(parser.go:667-671), so a caller contributes at most one call site per
callee no matter how often it calls it. -/
theorem C1_cex :
    tree.Build (fixtures.analyzerCalls 2) false fixtures.queryTarget =
      .ok (tree.CallNode.mk fixtures.fTarget
        [tree.CallNode.mk fixtures.fUtility [] 1 1] 0 0) ∧
    (1 : Nat) ≠ 2 :=
  ⟨rfl, by decide⟩

/-- C1 amended: for every caller that invokes the target N ≥ 1 times, the
built tree contains exactly one child node for that caller, and its usage
count is 1 (not N): the call graph keeps at most one call site per
(caller, callee) pair. -/
theorem C1_amended_grouping (n : Nat) (h : 1 ≤ n) :
    ∃ root, tree.Build (fixtures.analyzerCalls n) false fixtures.queryTarget = .ok root ∧
      root.Children = [tree.CallNode.mk fixtures.fUtility [] 1 1] := by
  obtain ⟨m, rfl⟩ : ∃ m, n = m + 1 := ⟨n - 1, by omega⟩
  have hstep : ∀ g : analyzer.CallGraph,
      analyzer.processCallExpr [fixtures.fUtility, fixtures.fTarget]
        (.identCall "TargetFunction") fixtures.fUtility
        [fixtures.fUtility, fixtures.fTarget] g =
      analyzer.addCallSite g fixtures.fUtility fixtures.fTarget := fun g => rfl
  have hidem : ∀ g : analyzer.CallGraph,
      analyzer.addCallSite (analyzer.addCallSite g fixtures.fUtility fixtures.fTarget)
        fixtures.fUtility fixtures.fTarget =
      analyzer.addCallSite g fixtures.fUtility fixtures.fTarget :=
    fun g => analyzer.addCallSite_idem g fixtures.fUtility fixtures.fTarget
  have hgraph : fixtures.graphAfterCalls (m + 1) = fixtures.graphAfterCalls 1 := by
    unfold fixtures.graphAfterCalls analyzer.resolveBody
    rw [List.replicate_succ, List.foldl_cons]
    rw [hstep]
    rw [show List.replicate 1 (analyzer.CallFun.identCall "TargetFunction") =
      [analyzer.CallFun.identCall "TargetFunction"] from rfl]
    rw [List.foldl_cons, List.foldl_nil, hstep]
    exact gostr.foldl_replicate_idem
      (fun g call => analyzer.processCallExpr [fixtures.fUtility, fixtures.fTarget]
        call fixtures.fUtility [fixtures.fUtility, fixtures.fTarget] g)
      (analyzer.CallFun.identCall "TargetFunction")
      (fun x => by simp only [hstep]; exact hidem x) m []
  have hana : fixtures.analyzerCalls (m + 1) = fixtures.analyzerCalls 1 := by
    unfold fixtures.analyzerCalls
    rw [hgraph]
  refine ⟨tree.CallNode.mk fixtures.fTarget
    [tree.CallNode.mk fixtures.fUtility [] 1 1] 0 0, ?_, rfl⟩
  rw [hana]
  rfl

/-- C1 witness: the amended grouping law at N = 3. -/
theorem C1_witness :
    ∃ root, tree.Build (fixtures.analyzerCalls 3) false fixtures.queryTarget = .ok root ∧
      root.Children = [tree.CallNode.mk fixtures.fUtility [] 1 1] :=
  C1_amended_grouping 3 (by decide)

/-- C2 counterexample: the signature stored for `func TargetFunction(x int)`
is `"func TargetFunction (x int)"` — it contains the parameter name `x`
(and a space before the parameter list), so it does not equal the
pure-type form `func name(type)` the claim asserts
(`specCanonicalSignature` renders that asserted form). -/
theorem C2_cex :
    fixtures.fTarget.Signature = "func TargetFunction (x int)" ∧
    analyzer.specCanonicalSignature fixtures.declTarget = "func TargetFunction(int)" ∧
    fixtures.fTarget.Signature ≠ analyzer.specCanonicalSignature fixtures.declTarget := by
  refine ⟨rfl, rfl, ?_⟩
  decide

/-- C2 amended: the stored canonical signature is
`func [(recvName recvType)] name (paramName paramType[, ...])` — parameter
(and receiver) names are included when declared — but matching compares
only the last whitespace-separated token of each parameter, so parameter
names still play no part in signature matching: one-word-then-type
parameters with different names always match, and a name-free query
matches the stored named form. -/
theorem C2_amended_signature_shape :
    fixtures.fTarget.Signature = "func TargetFunction (x int)" ∧
    (∀ v w t : String, v.toList ≠ [] → w.toList ≠ [] → t.toList ≠ [] →
      (∀ c ∈ v.toList, c.isWhitespace = false) →
      (∀ c ∈ w.toList, c.isWhitespace = false) →
      (∀ c ∈ t.toList, c.isWhitespace = false) →
      analyzer.matchesParam (v ++ " " ++ t) (w ++ " " ++ t) = true) ∧
    analyzer.matchesSignature fixtures.fTarget "func TargetFunction(y int)" = true := by
  refine ⟨rfl, ?_, by decide⟩
  intro v w t hv hw ht hvw hww htw
  unfold analyzer.matchesParam
  rw [gostr.fields_two_words v t hv ht hvw htw,
      gostr.fields_two_words w t hw ht hww htw]
  simp

/-- C2 witness: the parameter-name-blind matching rule at concrete
parameters `x int` and `y int`. -/
theorem C2_witness :
    analyzer.matchesParam ("x" ++ " " ++ "int") ("y" ++ " " ++ "int") = true :=
  C2_amended_signature_shape.2.1 "x" "y" "int" (by decide) (by decide) (by decide)
    (by decide) (by decide) (by decide)

/-- C5: the target resolved inside `FindCallers` is always a matching
Function whose identity key is lexicographically minimal among all
matching catalog Functions; in particular, if exactly one Function
matches, the resolved target is that Function. -/
theorem C5_resolveTarget_min (a : analyzer.Analyzer) (ts : String)
    (t : analyzer.Function) (h : analyzer.resolveTarget a ts = some t) :
    analyzer.matchesSignature t ts = true ∧
    (∀ g ∈ a.functions, analyzer.matchesSignature g ts = true →
      gostr.strLt (analyzer.getFunctionKey g) (analyzer.getFunctionKey t) = false) ∧
    (∀ f : analyzer.Function,
      a.functions.filter (fun fn => analyzer.matchesSignature fn ts) = [f] → t = f) := by
  unfold analyzer.resolveTarget at h
  have hperm : (analyzer.sortFns
      (a.functions.filter (fun fn => analyzer.matchesSignature fn ts))).Perm
      (a.functions.filter (fun fn => analyzer.matchesSignature fn ts)) :=
    gostr.sortListBy_perm analyzer.fnLe _
  have hpair : (analyzer.sortFns
      (a.functions.filter (fun fn => analyzer.matchesSignature fn ts))).Pairwise
      (fun x y => analyzer.fnLe x y = true) :=
    gostr.pairwise_sortListBy (fun x y => analyzer.fnLe_total x y)
      (fun x y z => analyzer.fnLe_trans x y z) _
  cases hs : analyzer.sortFns
      (a.functions.filter (fun fn => analyzer.matchesSignature fn ts)) with
  | nil =>
    rw [hs] at h
    exact absurd h (by simp)
  | cons t0 rest =>
    rw [hs] at h hperm hpair
    simp only [List.head?] at h
    injection h with h
    subst h
    refine ⟨?_, ?_, ?_⟩
    · have : t0 ∈ a.functions.filter (fun fn => analyzer.matchesSignature fn ts) :=
        hperm.mem_iff.mp (List.mem_cons_self t0 rest)
      exact (List.mem_filter.mp this).2
    · intro g hg hmg
      have hmem : g ∈ t0 :: rest :=
        hperm.mem_iff.mpr (List.mem_filter.mpr ⟨hg, hmg⟩)
      rcases List.mem_cons.mp hmem with hgt | hgr
      · rw [hgt]
        exact gostr.strLt_irrefl _
      · have hle := List.rel_of_pairwise_cons hpair hgr
        simpa [analyzer.fnLe, Bool.not_eq_true'] using hle
    · intro f hf
      rw [hf] at hs
      have h2 : [f] = t0 :: rest := hs
      injection h2 with h3 h4
      exact h3.symm

/-- C5 witness: the single-match query resolves to `TargetFunction`, which
is a match, minimal, and the unique filter survivor. -/
theorem C5_witness :
    analyzer.matchesSignature fixtures.fTarget fixtures.queryTarget = true ∧
    (∀ g ∈ (fixtures.analyzerCalls 1).functions,
      analyzer.matchesSignature g fixtures.queryTarget = true →
      gostr.strLt (analyzer.getFunctionKey g)
        (analyzer.getFunctionKey fixtures.fTarget) = false) ∧
    (∀ f : analyzer.Function,
      (fixtures.analyzerCalls 1).functions.filter
        (fun fn => analyzer.matchesSignature fn fixtures.queryTarget) = [f] →
      fixtures.fTarget = f) :=
  C5_resolveTarget_min (fixtures.analyzerCalls 1) fixtures.queryTarget
    fixtures.fTarget rfl

/-- C3 counterexample: a deep field-access selector call (`a.b.c.Foo()`,
no receiver-variable hint) with two candidates `(*Alpha).Foo` in `p1` and
`(*Beta).Foo` in `p2`, neither in the caller's package `p3`: the candidate
set has two elements, yet no edge is recorded — the field-access branch
(parser.go:447-479) has no last-resort pick, contradicting the claim that
an edge is always recorded for two or more candidates. -/
theorem C3_cex :
    (analyzer.sortFns (fixtures.catalogC3.filter
      (fun fn => fn.Name == "Foo" && fn.Receiver ≠ ""))).length = 2 ∧
    fixtures.fFooAlpha.Package ≠ fixtures.fDoWork.Package ∧
    fixtures.fFooBeta.Package ≠ fixtures.fDoWork.Package ∧
    analyzer.processCallExpr fixtures.catalogC3 (.selFieldDeep "Foo")
      fixtures.fDoWork [] [] = [] := by
  refine ⟨by decide, by decide, by decide, by decide⟩

/-- C3 amended: the always-recorded-edge rule holds for selector calls
that carry a receiver-variable hint (simple-identifier receivers,
parser.go:406-446), when no local-file candidate matched: with two or more
heuristic-compatible candidates an edge is always recorded, to the
same-package candidate that is first in key order if one exists, otherwise
to the candidate with the lexicographically smallest identity key.  For
deep field-access calls without a hint the code records no edge when
several candidates exist and none is in the caller's package (see the
counterexample). -/
theorem C3_amended_selector (catalog : List analyzer.Function)
    (caller : analyzer.Function) (varName method : String) (g : analyzer.CallGraph)
    (hv : varName ≠ "") (hm : method ≠ "")
    (hc : 2 ≤ (analyzer.candFilter catalog varName method).length) :
    ∃ chosen : analyzer.Function,
      analyzer.processCallExpr catalog (.selIdent varName method) caller [] g =
        analyzer.addCallSite g caller chosen ∧
      chosen ∈ analyzer.candFilter catalog varName method ∧
      ((∃ fn ∈ analyzer.candFilter catalog varName method,
          fn.Package = caller.Package) →
        chosen.Package = caller.Package ∧
        ∀ fn ∈ analyzer.candFilter catalog varName method,
          fn.Package = caller.Package →
          gostr.strLt (analyzer.getFunctionKey fn)
            (analyzer.getFunctionKey chosen) = false) ∧
      ((∀ fn ∈ analyzer.candFilter catalog varName method,
          fn.Package ≠ caller.Package) →
        ∀ fn ∈ analyzer.candFilter catalog varName method,
          gostr.strLt (analyzer.getFunctionKey fn)
            (analyzer.getFunctionKey chosen) = false) := by
  have hperm : (analyzer.sortFns (analyzer.candFilter catalog varName method)).Perm
      (analyzer.candFilter catalog varName method) :=
    gostr.sortListBy_perm analyzer.fnLe _
  have hpair : (analyzer.sortFns (analyzer.candFilter catalog varName method)).Pairwise
      (fun x y => analyzer.fnLe x y = true) :=
    gostr.pairwise_sortListBy (fun x y => analyzer.fnLe_total x y)
      (fun x y z => analyzer.fnLe_trans x y z) _
  have hlen : 2 ≤ (analyzer.sortFns (analyzer.candFilter catalog varName method)).length := by
    rw [hperm.length_eq]
    exact hc
  cases hs : analyzer.sortFns (analyzer.candFilter catalog varName method) with
  | nil => rw [hs] at hlen; simp at hlen
  | cons f0 tl =>
    cases tl with
    | nil => rw [hs] at hlen; simp at hlen
    | cons f1 rest =>
      rw [hs] at hpair
      have heq : analyzer.processCallExpr catalog (.selIdent varName method) caller [] g =
          (match (f0 :: f1 :: rest).find? (fun fn => fn.Package == caller.Package) with
           | some fn => analyzer.addCallSite g caller fn
           | none => analyzer.addCallSite g caller f0) := by
        simp only [analyzer.processCallExpr, List.foldl_nil, Bool.not_false, Bool.true_and]
        rw [if_pos (by simp [hm]), if_pos (by simp [hv])]
        unfold analyzer.candFilter at hs
        rw [hs]
      cases hfind : (f0 :: f1 :: rest).find? (fun fn => fn.Package == caller.Package) with
      | some fn =>
        have hfnmem : fn ∈ analyzer.candFilter catalog varName method := by
          refine hperm.mem_iff.mp ?_
          rw [hs]
          exact List.mem_of_find?_eq_some hfind
        have hpkg : fn.Package = caller.Package := by
          simpa using List.find?_some hfind
        refine ⟨fn, by rw [heq, hfind], hfnmem, ?_, ?_⟩
        · intro _
          refine ⟨hpkg, ?_⟩
          intro fn' hfn' hpkg'
          have hmem' : fn' ∈ f0 :: f1 :: rest := by
            rw [← hs]
            exact hperm.mem_iff.mpr hfn'
          have hle := gostr.find?_min_of_pairwise (fun x => analyzer.fnLe_refl x)
            hpair hfind fn' hmem' (by simp [hpkg'])
          simpa [analyzer.fnLe, Bool.not_eq_true'] using hle
        · intro hall
          exact absurd hpkg (hall fn hfnmem)
      | none =>
        have hf0mem : f0 ∈ analyzer.candFilter catalog varName method := by
          refine hperm.mem_iff.mp ?_
          rw [hs]
          exact List.mem_cons_self f0 (f1 :: rest)
        refine ⟨f0, by rw [heq, hfind], hf0mem, ?_, ?_⟩
        · rintro ⟨fn', hfn', hpkg'⟩
          exfalso
          have hmem' : fn' ∈ f0 :: f1 :: rest := by
            rw [← hs]
            exact hperm.mem_iff.mpr hfn'
          exact (List.find?_eq_none.mp hfind fn' hmem') (by simp [hpkg'])
        · intro _ fn' hfn'
          have hmem' : fn' ∈ f0 :: f1 :: rest := by
            rw [← hs]
            exact hperm.mem_iff.mpr hfn'
          rcases List.mem_cons.mp hmem' with h0 | htl
          · rw [h0]
            exact gostr.strLt_irrefl _
          · have hle := List.rel_of_pairwise_cons hpair htl
            simpa [analyzer.fnLe, Bool.not_eq_true'] using hle


/-- C3 witness: the hinted-selector rule at a concrete two-candidate
catalog. -/
theorem C3_witness :
    ∃ chosen : analyzer.Function,
      analyzer.processCallExpr fixtures.catalogPing (.selIdent "a" "Ping")
        fixtures.fDoWork [] [] = analyzer.addCallSite [] fixtures.fDoWork chosen ∧
      chosen ∈ analyzer.candFilter fixtures.catalogPing "a" "Ping" ∧
      ((∃ fn ∈ analyzer.candFilter fixtures.catalogPing "a" "Ping",
          fn.Package = fixtures.fDoWork.Package) →
        chosen.Package = fixtures.fDoWork.Package ∧
        ∀ fn ∈ analyzer.candFilter fixtures.catalogPing "a" "Ping",
          fn.Package = fixtures.fDoWork.Package →
          gostr.strLt (analyzer.getFunctionKey fn)
            (analyzer.getFunctionKey chosen) = false) ∧
      ((∀ fn ∈ analyzer.candFilter fixtures.catalogPing "a" "Ping",
          fn.Package ≠ fixtures.fDoWork.Package) →
        ∀ fn ∈ analyzer.candFilter fixtures.catalogPing "a" "Ping",
          gostr.strLt (analyzer.getFunctionKey fn)
            (analyzer.getFunctionKey chosen) = false) :=
  C3_amended_selector fixtures.catalogPing fixtures.fDoWork "a" "Ping" []
    (by decide) (by decide) (by decide)

/-- C7: tree-building is total and bounded — every successfully built tree
has height at most 21 (root at depth 0, recursion capped past depth 20),
for any call graph including self-referential ones; and once the
path-local cycle guard triggers (the node's builder key is already on the
current path), the node is left with no children, omitting the
self-referential child instead of repeating it. -/
theorem C7_termination_and_guard :
    (∀ (a : analyzer.Analyzer) (nt : Bool) (sig : String) (t : tree.CallNode),
      tree.Build a nt sig = .ok t → t.height ≤ 21) ∧
    (∀ (a : analyzer.Analyzer) (nt : Bool) (v : List String)
      (fn : analyzer.Function) (d : Nat),
      v.contains (tree.getFunctionKey fn) = true →
      tree.buildChildren a nt v fn d = []) := by
  constructor
  · intro a nt sig t h
    unfold tree.Build at h
    cases hfc : analyzer.FindCallers a sig nt with
    | error e =>
      rw [hfc] at h
      exact absurd h (by simp)
    | ok cs =>
      rw [hfc] at h
      cases cs with
      | nil => exact absurd h (by simp)
      | cons c0 rest =>
        simp only [Except.ok.injEq] at h
        subst h
        simp only [tree.CallNode.height]
        have hbound : tree.heightList (tree.sortChildren
            ((tree.groupCallSitesByCaller (c0 :: rest)).map (fun gp =>
              tree.CallNode.mk gp.1 (tree.buildChildren a nt [] gp.1 2)
                gp.2.length 1))) ≤ 20 := by
          refine le_trans (tree.heightList_sortChildren_le _) ?_
          refine tree.heightList_le_of_forall ?_
          intro x hx
          rcases List.mem_map.mp hx with ⟨gp, _, hgp⟩
          subst hgp
          simp only [tree.CallNode.height]
          have := tree.heightList_buildChildren a nt [] gp.1 2
          omega
        omega
  · exact tree.buildChildren_visited

/-- C7 witness: the self-recursive target's tree is height-bounded, and a
function whose builder key is already on the path gets no children. -/
theorem C7_witness :
    (tree.CallNode.height fixtures.tLoop ≤ 21) ∧
    tree.buildChildren fixtures.loopAnalyzer false
      [tree.getFunctionKey fixtures.fTarget] fixtures.fTarget 2 = [] :=
  ⟨C7_termination_and_guard.1 fixtures.loopAnalyzer false fixtures.queryTarget
      fixtures.tLoop rfl,
   C7_termination_and_guard.2 fixtures.loopAnalyzer false
      [tree.getFunctionKey fixtures.fTarget] fixtures.fTarget 2 (by decide)⟩

/-- C9: in every successfully built tree, the children of every node (root
included) are in ascending `(package, file, name, line)` order. -/
theorem C9_children_sorted (a : analyzer.Analyzer) (nt : Bool) (sig : String)
    (t : tree.CallNode) (h : tree.Build a nt sig = .ok t) :
    tree.sortedNode t = true := by
  unfold tree.Build at h
  cases hfc : analyzer.FindCallers a sig nt with
  | error e =>
    rw [hfc] at h
    exact absurd h (by simp)
  | ok cs =>
    rw [hfc] at h
    cases cs with
    | nil => exact absurd h (by simp)
    | cons c0 rest =>
      simp only [Except.ok.injEq] at h
      subst h
      simp only [tree.sortedNode, Bool.and_eq_true]
      constructor
      · exact tree.chainLeB_of_pairwise (tree.pairwise_sortChildren _)
      · rw [tree.sortedList_forall]
        intro x hx
        rcases List.mem_map.mp (tree.mem_sortChildren.mp hx) with ⟨gp, _, hgp⟩
        subst hgp
        simp only [tree.sortedNode, Bool.and_eq_true]
        exact ⟨(tree.sorted_buildChildrenAux a nt (21 - 2) [] gp.1 2).1,
               (tree.sorted_buildChildrenAux a nt (21 - 2) [] gp.1 2).2⟩

/-- C9 witness: the tree built for the single-caller fixture is sorted. -/
theorem C9_witness : tree.sortedNode fixtures.tUtility = true :=
  C9_children_sorted (fixtures.analyzerCalls 1) false fixtures.queryTarget
    fixtures.tUtility rfl

/-- C10 counterexample: for the self-recursive target, the built tree is
`TargetFunction → TargetFunction → TargetFunction(leaf)` — the root and
its depth-1 child share the same `(package, receiver, name)` builder key
and both are expanded (both have children), so it is not the case that on
every root-to-node path at most one node per triple is expanded: `Build`
never marks the root's key, only `buildSubtree` marks keys
(builder.go:51-61 vs 81-86). -/
theorem C10_cex :
    tree.Build fixtures.loopAnalyzer false fixtures.queryTarget = .ok fixtures.tLoop ∧
    ¬ tree.pathTriplesOnce fixtures.tLoop := by
  refine ⟨rfl, ?_⟩
  intro h
  have h2 := h fixtures.tLoop (.refl _)
    (tree.CallNode.mk fixtures.fTarget
      [tree.CallNode.mk fixtures.fTarget [] 1 2] 1 1)
    ⟨tree.CallNode.mk fixtures.fTarget
      [tree.CallNode.mk fixtures.fTarget [] 1 2] 1 1,
     List.mem_singleton.mpr rfl, .refl _⟩ rfl
  simp only [tree.CallNode.Children] at h2
  exact absurd h2 (by simp)

/-- C10 amended: the builder's cycle guard keys nodes by
`(package, receiver, name)` only (no line), and below the root the claimed
property holds: whenever a non-root node `Y` lies strictly deeper on the
same path than a non-root node `X` with the same builder key, `Y` is left
unexpanded.  The root itself is unguarded, so the target's own triple can
be expanded a second time at depth 1 (see the counterexample). -/
theorem C10_amended_guard (a : analyzer.Analyzer) (nt : Bool) (sig : String)
    (t : tree.CallNode) (h : tree.Build a nt sig = .ok t) :
    ∀ X : tree.CallNode, tree.StrictBelow X t →
      ∀ Y : tree.CallNode, tree.StrictBelow Y X →
        tree.getFunctionKey X.Function = tree.getFunctionKey Y.Function →
        Y.Children = [] := by
  unfold tree.Build at h
  cases hfc : analyzer.FindCallers a sig nt with
  | error e =>
    rw [hfc] at h
    exact absurd h (by simp)
  | ok cs =>
    rw [hfc] at h
    cases cs with
    | nil => exact absurd h (by simp)
    | cons c0 rest =>
      simp only [Except.ok.injEq] at h
      subst h
      rintro X ⟨c, hc, hocc⟩ Y hY hkey
      rcases List.mem_map.mp (tree.mem_sortChildren.mp hc) with ⟨gp, _, hgp⟩
      subst hgp
      have hguard : tree.guardOkNode []
          (tree.CallNode.mk gp.1 (tree.buildChildren a nt [] gp.1 2) gp.2.length 1) := by
        refine ⟨?_, ?_⟩
        · intro hcon
          exact absurd hcon (by simp [List.contains])
        · exact tree.guardOk_buildChildrenAux a nt (21 - 2) [] gp.1 2
      exact tree.guardOk_below hocc [] hguard hY hkey

/-- C10 witness: in the self-recursion fixture, the depth-1 node and the
depth-2 node share the builder key, and the deeper one is unexpanded. -/
theorem C10_witness :
    (tree.CallNode.mk fixtures.fTarget [] 1 2).Children = [] :=
  C10_amended_guard fixtures.loopAnalyzer false fixtures.queryTarget
    fixtures.tLoop rfl
    (tree.CallNode.mk fixtures.fTarget
      [tree.CallNode.mk fixtures.fTarget [] 1 2] 1 1)
    ⟨tree.CallNode.mk fixtures.fTarget
      [tree.CallNode.mk fixtures.fTarget [] 1 2] 1 1,
     List.mem_singleton.mpr rfl, .refl _⟩
    (tree.CallNode.mk fixtures.fTarget [] 1 2)
    ⟨tree.CallNode.mk fixtures.fTarget [] 1 2,
     List.mem_singleton.mpr rfl, .refl _⟩ rfl
